import Mathlib

/-!
# Verification of the postgres→elasticsearch sync engine and its read-side API

Shallow embedding of `sync_manager.py`, `main.py` and `api_service.py`.
Timestamps are modelled as natural numbers, `0` standing for the epoch start
`'1970-01-01'`; machine strings are Lean `String`s; SQL tables and the search
index are association lists.  Fallible operations return `Except`/`Option`.
-/

namespace SyncManager

/-- An instant; `0` models `'1970-01-01'::timestamp`, the `COALESCE` default. -/
abbrev Timestamp := Nat

/-- A source row as fetched by `SELECT *`: the primary-key column value, the
value of the table's timestamp column, and the remaining columns (opaque). -/
structure Row where
  pk : Nat
  ts : Timestamp
  payload : List (String × String)
deriving DecidableEq, Repr

/-- Per-table configuration (`config.yaml` entry): `{name, index_name,
timestamp_column, primary_key}`.  The timestamp column and primary key are
identified with the `ts`/`pk` fields of `Row` in this embedding. -/
structure TableConfig where
  name : String
  index_name : String
deriving DecidableEq, Repr

/-- Global sync configuration; `none` fields model missing keys, read through
`sync_config.get(key, default)`. -/
structure SyncConfig where
  min_batch_size : Option Nat
  max_batch_size : Option Nat
deriving DecidableEq, Repr

/-- The relational database visible to the sync engine: the data tables
(name → rows) and the `sync_status(table_name PRIMARY KEY, last_sync_time)`
watermark table. -/
structure Db where
  tables : List (String × List Row)
  schemas : List (String × List (String × String))
  syncStatus : List (String × Timestamp)
deriving DecidableEq, Repr

/-- `COALESCE((SELECT last_sync_time FROM sync_status WHERE table_name = %s),
'1970-01-01'::timestamp)` — the watermark read, defaulting to the epoch. -/
def Db.watermark (db : Db) (table : String) : Timestamp :=
  (db.syncStatus.lookup table).getD 0

/-- The rows of a data table (an absent table has no rows). -/
def Db.rowsOf (db : Db) (table : String) : List Row :=
  (db.tables.lookup table).getD []

/-- `INSERT INTO sync_status ... ON CONFLICT (table_name) DO UPDATE SET
last_sync_time = EXCLUDED.last_sync_time` — upsert keyed by table name. -/
def Db.statusUpsert (db : Db) (table : String) (t : Timestamp) : Db :=
  { db with
    syncStatus :=
      if (db.syncStatus.lookup table).isSome then
        db.syncStatus.map (fun p => if p.1 = table then (p.1, t) else p)
      else
        db.syncStatus ++ [(table, t)] }

/-- `get_table_schema`: the `information_schema.columns` rows
`(column_name, data_type)` for the table, in declaration order.  A table
absent from the catalog yields the empty dict, as in the code. -/
def get_table_schema (db : Db) (table_name : String) : List (String × String) :=
  (db.schemas.lookup table_name).getD []

/-- The fixed `pg_to_es_type` translation table of `create_es_mapping`. -/
def pg_to_es_type : List (String × String) :=
  [("integer", "integer"),
   ("bigint", "long"),
   ("smallint", "short"),
   ("decimal", "double"),
   ("numeric", "double"),
   ("real", "float"),
   ("double precision", "double"),
   ("character varying", "keyword"),
   ("text", "text"),
   ("boolean", "boolean"),
   ("timestamp without time zone", "date"),
   ("timestamp with time zone", "date"),
   ("date", "date"),
   ("jsonb", "object"),
   ("json", "object")]

/-- `data_type.lower()`: ASCII lowercasing, characterwise — the catalog's
type names are ASCII, where Python's `str.lower` acts exactly like this. -/
def strLower (s : String) : String := ⟨s.data.map Char.toLower⟩

/-- A keyword sub-field entry `{'type': 'keyword', 'ignore_above': 256}`. -/
structure KeywordSubfield where
  type : String
  ignore_above : Nat
deriving DecidableEq, Repr

/-- One column's field-type descriptor: `{'type': es_type}` plus, for text
columns, the `fields.keyword` sub-field. -/
structure FieldMapping where
  type : String
  fields : Option KeywordSubfield
deriving DecidableEq, Repr

/-- `create_es_mapping`: translate a PostgreSQL schema into Elasticsearch
mapping properties.  Unknown types fall back to `'keyword'`; `'text'` columns
get a `keyword` sub-field with `ignore_above: 256`. -/
def create_es_mapping (schema : List (String × String)) :
    List (String × FieldMapping) :=
  schema.map fun p =>
    let es_type := (pg_to_es_type.lookup (strLower p.2)).getD "keyword"
    (p.1,
     { type := es_type,
       fields :=
         if es_type = "text" then
           some { type := "keyword", ignore_above := 256 }
         else none })

/-- `int(min_size * math.log10(remaining_records))`, computed exactly over ℕ
as `Nat.log 10 (remaining ^ min_size)`; `floorMulLog10_eq` proves this equal
to the real-valued expression `⌊min_size * log10 remaining⌋`. -/
def floorMulLog10 (min_size remaining : Nat) : Nat :=
  Nat.log 10 (remaining ^ min_size)

/-- `calculate_batch_size` (the decision logic after the `COUNT(*)` query):
given the configured bounds and the remaining backlog, pick the batch size. -/
def calculate_batch_size (cfg : SyncConfig) (remaining : Nat) : Nat :=
  let min_size := cfg.min_batch_size.getD 100
  let max_size := cfg.max_batch_size.getD 5000
  if remaining ≤ min_size then min_size
  else if remaining ≤ max_size then remaining
  else min max_size (floorMulLog10 min_size remaining)

/-- Core of `chunkList`; `fuel` only bounds the recursion — every round with
a nonempty stream consumes at least one element, so any fuel at least the
stream's length reproduces the unbounded loop. -/
def chunkFuel {α : Type} : Nat → Nat → List α → List (List α)
  | 0, _, _ => []
  | _ + 1, _, [] => []
  | fuel + 1, n, x :: xs =>
    if n = 0 then []
    else ((x :: xs).take n) :: chunkFuel fuel n ((x :: xs).drop n)

/-- `cursor.fetchmany(batch_size)` pulled in a loop until an empty fetch:
split the stream into successive chunks of `n`.  With `n = 0` the first fetch
is already empty, so the loop breaks at once and no batches are produced. -/
def chunkList {α : Type} (n : Nat) (xs : List α) : List (List α) :=
  chunkFuel xs.length n xs

/-- A document held by the index, keyed by `(index, id)`. -/
structure EsDoc where
  index : String
  id : String
  source : Row
deriving DecidableEq, Repr

/-- The search-index service: existing indices with their mapping properties,
and the documents. -/
structure EsState where
  indices : List (String × List (String × FieldMapping))
  docs : List EsDoc
deriving DecidableEq, Repr

/-- `indices.exists` / `indices.create` / `indices.put_mapping`: create the
index with the mapping when absent, otherwise update its mapping. -/
def EsState.ensureIndex (es : EsState) (index : String)
    (m : List (String × FieldMapping)) : EsState :=
  if (es.indices.lookup index).isSome then
    { es with indices := es.indices.map fun p => if p.1 = index then (p.1, m) else p }
  else
    { es with indices := es.indices ++ [(index, m)] }

/-- Bulk upsert of one document: overwrite by `(index, id)` when present,
append otherwise. -/
def EsState.upsert (es : EsState) (d : EsDoc) : EsState :=
  if es.docs.any (fun e => e.index = d.index && e.id = d.id) then
    { es with docs := es.docs.map fun e =>
        if e.index = d.index && e.id = d.id then d else e }
  else { es with docs := es.docs ++ [d] }

/-- `{'_index': index_name, '_id': str(row[primary_key]), '_source': dict(row)}`. -/
structure BulkAction where
  index : String
  id : String
  source : Row
deriving DecidableEq, Repr

/-- Build the bulk action for one fetched row. -/
def toAction (index_name : String) (r : Row) : BulkAction :=
  { index := index_name, id := toString r.pk, source := r }

/-- Effects outside the program, fixed for one cycle: whether the catalog
query behind `get_table_schema` raises for a table, which documents the index
rejects (per-document bulk failures), and the value returned by the `k`-th
`datetime.now()` call of the cycle. -/
structure SyncEnv where
  schemaFails : String → Bool
  rejects : BulkAction → Bool
  clock : Nat → Timestamp

/-- `sync_batch`: `bulk(es_client, actions, raise_on_error=False,
raise_on_exception=False)` — indexes the accepted documents, returns
`(success_count, failed_items)` and never raises on per-document failure. -/
def sync_batch (env : SyncEnv) (es : EsState) (actions : List BulkAction) :
    Nat × List BulkAction × EsState :=
  let ok := actions.filter fun a => !env.rejects a
  let failed := actions.filter fun a => env.rejects a
  (ok.length, failed,
   ok.foldl (fun s a => s.upsert { index := a.index, id := a.id, source := a.source }) es)

/-- Observable operations issued during a cycle, in order. -/
inductive Event where
  | createIndex (index : String)
  | putMapping (index : String)
  | bulkWrite (index : String) (success : Nat) (failedCount : Nat)
  | statusUpsert (table : String) (t : Timestamp)
deriving DecidableEq, Repr

/-- State threaded through one cycle: database, index, number of
`datetime.now()` calls made so far, and the trace of issued operations. -/
structure CycleState where
  db : Db
  es : EsState
  nowCalls : Nat
  trace : List Event
deriving DecidableEq, Repr

/-- The `while True: rows = cursor.fetchmany(...)` body applied to the
already-chunked row stream: bulk-write each batch, then upsert `sync_status`
with `datetime.now()` after every batch. -/
def syncBatches (env : SyncEnv) (c : TableConfig) :
    CycleState → List (List Row) → CycleState
  | s, [] => s
  | s, b :: bs =>
    let actions := b.map (toAction c.index_name)
    let r := sync_batch env s.es actions
    let t := env.clock s.nowCalls
    syncBatches env c
      { db := s.db.statusUpsert c.name t
        es := r.2.2
        nowCalls := s.nowCalls + 1
        trace := s.trace ++
          [.bulkWrite c.index_name r.1 r.2.1.length, .statusUpsert c.name t] } bs

/-- Errors `sync_table` can raise (re-raised by its `except` clause). -/
inductive SyncError where
  | schemaError (table : String)
deriving DecidableEq, Repr

/-- The result rows of `SELECT * FROM t WHERE ts_col > watermark ORDER BY
ts_col` (ties in the timestamp column left in an arbitrary stable order). -/
def fetchedRows (db : Db) (table : String) : List Row :=
  ((db.rowsOf table).filter fun r => db.watermark table < r.ts).insertionSort
    fun a b => a.ts ≤ b.ts

/-- The `SELECT COUNT(*) ... WHERE ts_col > watermark` read by
`calculate_batch_size`. -/
def remainingRecords (db : Db) (table : String) : Nat :=
  ((db.rowsOf table).filter fun r => db.watermark table < r.ts).length

/-- `sync_table`: introspect the schema, create or update the index mapping,
plan the batch size, stream the pending rows in batches through `sync_batch`,
and upsert the watermark after every batch.  Any error is re-raised. -/
def sync_table (env : SyncEnv) (cfg : SyncConfig) (c : TableConfig)
    (s : CycleState) : Except SyncError CycleState :=
  if env.schemaFails c.name then .error (.schemaError c.name)
  else
    let schema := get_table_schema s.db c.name
    let mapping := create_es_mapping schema
    let metaEvent := if (s.es.indices.lookup c.index_name).isSome
      then Event.putMapping c.index_name else Event.createIndex c.index_name
    let es₁ := s.es.ensureIndex c.index_name mapping
    let batch_size := calculate_batch_size cfg (remainingRecords s.db c.name)
    let batches := chunkList batch_size (fetchedRows s.db c.name)
    .ok (syncBatches env c
      { s with es := es₁, trace := s.trace ++ [metaEvent] } batches)

/-- The operations `sync_table` issues for the successive batches: one bulk
write (counting accepted and rejected documents) followed by one watermark
upsert per batch; rejected documents are only counted, never aborting. -/
def batchTrace (env : SyncEnv) (c : TableConfig) : Nat → List (List Row) → List Event
  | _, [] => []
  | k, b :: bs =>
    .bulkWrite c.index_name
        ((b.map (toAction c.index_name)).filter fun a => !env.rejects a).length
        ((b.map (toAction c.index_name)).filter fun a => env.rejects a).length ::
    .statusUpsert c.name (env.clock k) ::
    batchTrace env c (k + 1) bs

/-- The per-cycle `for table_config in sync_config['tables']` loop of `main`:
the whole loop runs inside a single `try`, so the first table whose sync
raises aborts the loop; `main` catches the error outside the loop, sleeps,
and starts a new cycle. -/
def runCycle (env : SyncEnv) (cfg : SyncConfig) :
    List TableConfig → CycleState → CycleState × Option SyncError
  | [], s => (s, none)
  | c :: rest, s =>
    match sync_table env cfg c s with
    | .ok s' => runCycle env cfg rest s'
    | .error e => (s, some e)

/-! Concrete inputs used by the instantiated theorems. -/

/-- A sample source row. -/
def sampleRow : Row := { pk := 1, ts := 5, payload := [("name", "alice")] }

/-- A database with one `users` row pending and no `sync_status` record. -/
def sampleDb : Db :=
  { tables := [("users", [sampleRow])],
    schemas := [("users", [("id", "integer"), ("bio", "text")])],
    syncStatus := [] }

/-- An environment where nothing fails and `datetime.now()` reads `100 + k`. -/
def sampleEnv : SyncEnv :=
  { schemaFails := fun _ => false, rejects := fun _ => false,
    clock := fun k => 100 + k }

/-- The configured defaults. -/
def sampleCfg : SyncConfig := { min_batch_size := some 100, max_batch_size := some 5000 }

/-- The `users` table configuration. -/
def sampleTable : TableConfig := { name := "users", index_name := "users_idx" }

/-- The initial cycle state over `sampleDb` and an empty index service. -/
def sampleState : CycleState :=
  { db := sampleDb, es := { indices := [], docs := [] }, nowCalls := 0, trace := [] }

/-- A second table configuration, `orders`. -/
def ordersTable : TableConfig := { name := "orders", index_name := "orders_idx" }

/-- An environment where schema introspection raises for `orders` only. -/
def envOrdersSchemaFails : SyncEnv :=
  { schemaFails := fun t => t == "orders", rejects := fun _ => false,
    clock := fun k => 100 + k }

/-- A database whose one `users` row (timestamp 5) is at or below the stored
watermark 10: zero backlog. -/
def drainedDb : Db :=
  { tables := [("users", [sampleRow])], schemas := [],
    syncStatus := [("users", 10)] }

/-- Cycle state over `drainedDb`, the index already existing. -/
def drainedState : CycleState :=
  { db := drainedDb, es := { indices := [("users_idx", [])], docs := [] },
    nowCalls := 0, trace := [] }

/-- An environment whose index rejects the document with id `"1"`. -/
def rejectingEnv : SyncEnv :=
  { schemaFails := fun _ => false, rejects := fun a => a.id == "1",
    clock := fun k => 100 + k }

/-- Two pending `users` rows; the first will be rejected by `rejectingEnv`. -/
def twoRowDb : Db :=
  { tables := [("users", [{ pk := 1, ts := 5, payload := [] },
                          { pk := 2, ts := 7, payload := [] }])],
    schemas := [("users", [("id", "integer")])],
    syncStatus := [] }

/-- Initial cycle state over `twoRowDb`. -/
def twoRowState : CycleState :=
  { db := twoRowDb, es := { indices := [], docs := [] }, nowCalls := 0, trace := [] }

end SyncManager

namespace ApiService

/-- The one Python exception type this service raises: `fastapi.HTTPException`. -/
inductive PyExc where
  | http (status : Nat) (detail : String)
deriving DecidableEq, Repr

/-- `str(e)` of an `HTTPException`: `f"{status_code}: {detail}"`. -/
def strOfExc : PyExc → String
  | .http s d => toString s ++ ": " ++ d

/-- A JSON value as it appears among cursor sort values.  The embedding covers
the fragment produced and consumed by the pagination token: `null`, booleans,
integers and strings (floats and nested containers are outside the model). -/
inductive JValue where
  | null
  | bool (b : Bool)
  | int (n : Int)
  | str (s : String)
deriving DecidableEq, Repr

/-- Lower-case hex digit, as CPython's `json` emits in `\uXXXX` escapes. -/
def hexDigitChar (n : Nat) : Char :=
  if n < 10 then Char.ofNat (48 + n) else Char.ofNat (97 + (n - 10))

/-- Four lower-case hex digits of `n < 0x10000`, most significant first. -/
def hex4 (n : Nat) : List Char :=
  [hexDigitChar (n / 4096 % 16), hexDigitChar (n / 256 % 16),
   hexDigitChar (n / 16 % 16), hexDigitChar (n % 16)]

/-- One character escaped as CPython's `json.dumps` (default `ensure_ascii`)
does: short escapes for `"`/`\`/control characters, printable ASCII verbatim,
everything else as `\uXXXX`, astral characters as a surrogate pair. -/
def escapeChar (c : Char) : List Char :=
  if c = '"' then ['\\', '"']
  else if c = '\\' then ['\\', '\\']
  else if c.toNat = 8 then ['\\', 'b']
  else if c.toNat = 9 then ['\\', 't']
  else if c.toNat = 10 then ['\\', 'n']
  else if c.toNat = 12 then ['\\', 'f']
  else if c.toNat = 13 then ['\\', 'r']
  else if c.toNat < 32 then '\\' :: 'u' :: hex4 c.toNat
  else if c.toNat < 127 then [c]
  else if c.toNat < 65536 then '\\' :: 'u' :: hex4 c.toNat
  else
    ('\\' :: 'u' :: hex4 (55296 + (c.toNat - 65536) / 1024)) ++
    ('\\' :: 'u' :: hex4 (56320 + (c.toNat - 65536) % 1024))

/-- Decimal digits of `n`, most significant first (CPython `int.__repr__`). -/
def natRepr (n : Nat) : List Char :=
  if n < 10 then [Char.ofNat (48 + n)]
  else natRepr (n / 10) ++ [Char.ofNat (48 + n % 10)]
decreasing_by exact Nat.div_lt_self (by omega) (by omega)

/-- `repr` of a Python `int`. -/
def intRepr : Int → List Char
  | .ofNat n => natRepr n
  | .negSucc m => '-' :: natRepr (m + 1)

/-- `json.dumps` of a single sort value. -/
def dumpValue : JValue → List Char
  | .null => "null".toList
  | .bool true => "true".toList
  | .bool false => "false".toList
  | .int n => intRepr n
  | .str s => '"' :: (s.toList.map escapeChar).flatten ++ ['"']

/-- `', '.join` of the dumped values, as the default item separator of
`json.dumps` produces. -/
def dumpItems : List JValue → List Char
  | [] => []
  | [v] => dumpValue v
  | v :: vs => dumpValue v ++ ',' :: ' ' :: dumpItems vs

/-- `json.dumps(sort_values)`: the bracketed, comma-space separated array. -/
def dumps (vs : List JValue) : List Char :=
  '[' :: dumpItems vs ++ [']']

/-- UTF-8 bytes of one unicode scalar value (`str.encode()`, per character). -/
def utf8EncodeChar (c : Char) : List Nat :=
  let v := c.toNat
  if v < 128 then [v]
  else if v < 2048 then [192 + v / 64, 128 + v % 64]
  else if v < 65536 then [224 + v / 4096, 128 + v / 64 % 64, 128 + v % 64]
  else [240 + v / 262144, 128 + v / 4096 % 64, 128 + v / 64 % 64, 128 + v % 64]

/-- `str.encode()`: UTF-8 bytes of the whole character list. -/
def utf8Encode (cs : List Char) : List Nat :=
  (cs.map utf8EncodeChar).flatten

/-- `bytes.decode()` (strict UTF-8): rebuild the characters or fail.  Only the
single-byte branch is exercised by the pagination token, whose JSON is pure
ASCII; multi-byte sequences are decoded by their standard ranges.  `fuel`
only bounds the recursion: every step consumes at least one byte, so callers
passing more fuel than the input length obtain the source loop's behaviour. -/
def utf8Decode : Nat → List Nat → Option (List Char)
  | 0, _ => none
  | _ + 1, [] => some []
  | fuel + 1, b :: bs =>
    if b < 128 then
      (utf8Decode fuel bs).map (Char.ofNat b :: ·)
    else if 194 ≤ b ∧ b ≤ 223 then
      match bs with
      | b2 :: bs' =>
        if 128 ≤ b2 ∧ b2 ≤ 191 then
          (utf8Decode fuel bs').map (Char.ofNat ((b - 192) * 64 + (b2 - 128)) :: ·)
        else none
      | [] => none
    else if 224 ≤ b ∧ b ≤ 239 then
      match bs with
      | b2 :: b3 :: bs' =>
        let v := (b - 224) * 4096 + (b2 - 128) * 64 + (b3 - 128)
        if 128 ≤ b2 ∧ b2 ≤ 191 ∧ 128 ≤ b3 ∧ b3 ≤ 191 ∧ 2048 ≤ v ∧
            ¬(55296 ≤ v ∧ v ≤ 57343) then
          (utf8Decode fuel bs').map (Char.ofNat v :: ·)
        else none
      | _ => none
    else if 240 ≤ b ∧ b ≤ 244 then
      match bs with
      | b2 :: b3 :: b4 :: bs' =>
        let v := (b - 240) * 262144 + (b2 - 128) * 4096 + (b3 - 128) * 64 + (b4 - 128)
        if 128 ≤ b2 ∧ b2 ≤ 191 ∧ 128 ≤ b3 ∧ b3 ≤ 191 ∧ 128 ≤ b4 ∧ b4 ≤ 191 ∧
            65536 ≤ v ∧ v ≤ 1114111 then
          (utf8Decode fuel bs').map (Char.ofNat v :: ·)
        else none
      | _ => none
    else none

/-- The standard base64 alphabet, `base64.b64encode`'s table. -/
def b64Char (n : Nat) : Char :=
  ("ABCDEFGHIJKLMNOPQRSTUVWXYZabcdefghijklmnopqrstuvwxyz0123456789+/".toList).getD n '='

/-- `base64.b64encode` of a byte list, as ASCII characters with padding. -/
def b64encodeList : List Nat → List Char
  | [] => []
  | [a] => [b64Char (a / 4), b64Char (a % 4 * 16), '=', '=']
  | [a, b] => [b64Char (a / 4), b64Char (a % 4 * 16 + b / 16), b64Char (b % 16 * 4), '=']
  | a :: b :: c :: rest =>
    b64Char (a / 4) :: b64Char (a % 4 * 16 + b / 16) ::
    b64Char (b % 16 * 4 + c / 64) :: b64Char (c % 64) :: b64encodeList rest

/-- The decoder's alphabet lookup (`binascii`'s table): index of a base64
character, `none` for anything else. -/
def b64IndexOf (c : Char) : Option Nat :=
  if 65 ≤ c.toNat ∧ c.toNat ≤ 90 then some (c.toNat - 65)
  else if 97 ≤ c.toNat ∧ c.toNat ≤ 122 then some (c.toNat - 97 + 26)
  else if 48 ≤ c.toNat ∧ c.toNat ≤ 57 then some (c.toNat - 48 + 52)
  else if c = '+' then some 62
  else if c = '/' then some 63
  else none

/-- `base64.b64decode`: groups of four characters to three bytes, padding
allowed only in the final group; anything malformed fails. -/
def b64decodeList : List Char → Option (List Nat)
  | [] => some []
  | c1 :: c2 :: c3 :: c4 :: rest =>
    (b64IndexOf c1).bind fun a =>
    (b64IndexOf c2).bind fun b =>
    if c3 = '=' then
      if c4 = '=' ∧ rest = [] then some [a * 4 + b / 16] else none
    else
      (b64IndexOf c3).bind fun c =>
      if c4 = '=' then
        if rest = [] then some [a * 4 + b / 16, b % 16 * 16 + c / 4] else none
      else
        (b64IndexOf c4).bind fun d =>
        (b64decodeList rest).map fun tail =>
          (a * 4 + b / 16) :: (b % 16 * 16 + c / 4) :: (c % 4 * 64 + d) :: tail
  | _ => none

/-- Whitespace skipping of the `json` scanner. -/
def skipWs : List Char → List Char
  | [] => []
  | c :: cs => if c = ' ' ∨ c = '\t' ∨ c = '\n' ∨ c = '\r' then skipWs cs else c :: cs

/-- ASCII decimal digit test. -/
def isDigit (c : Char) : Bool := 48 ≤ c.toNat ∧ c.toNat ≤ 57

/-- Whether the input starts with a decimal digit (the lookahead deciding
where a number token ends). -/
def headIsDigit : List Char → Bool
  | [] => false
  | c :: _ => isDigit c

/-- Greedy digit run, folding into an accumulator (the scanner's number
match, integer part). -/
def parseDigits : List Char → Nat → Nat × List Char
  | [], acc => (acc, [])
  | c :: cs, acc =>
    if isDigit c then parseDigits cs (acc * 10 + (c.toNat - 48)) else (acc, c :: cs)

/-- Value of one hex digit (upper or lower case), as `\uXXXX` accepts. -/
def hexVal (c : Char) : Option Nat :=
  if 48 ≤ c.toNat ∧ c.toNat ≤ 57 then some (c.toNat - 48)
  else if 97 ≤ c.toNat ∧ c.toNat ≤ 102 then some (c.toNat - 87)
  else if 65 ≤ c.toNat ∧ c.toNat ≤ 70 then some (c.toNat - 55)
  else none

/-- Value of a four-hex-digit escape payload. -/
def hex4Val (h1 h2 h3 h4 : Char) : Option Nat :=
  (hexVal h1).bind fun a => (hexVal h2).bind fun b =>
  (hexVal h3).bind fun c => (hexVal h4).map fun d =>
  a * 4096 + b * 256 + c * 16 + d

/-- `scanstring`: the body of a JSON string after the opening quote, producing
the decoded characters and the input following the closing quote.  Handles
the short escapes, `\uXXXX`, and surrogate-pair recombination; raw control
characters are rejected (strict mode).  `fuel` only bounds the recursion:
every step consumes at least one input character, so callers passing more
fuel than the input length obtain the source loop's behaviour. -/
def parseStringBody : Nat → List Char → Option (List Char × List Char)
  | 0, _ => none
  | _ + 1, [] => none
  | fuel + 1, c :: cs =>
    if c = '"' then some ([], cs)
    else if c = '\\' then
      match cs with
      | [] => none
      | e :: cs1 =>
        if e = '"' then (parseStringBody fuel cs1).map fun p => ('"' :: p.1, p.2)
        else if e = '\\' then (parseStringBody fuel cs1).map fun p => ('\\' :: p.1, p.2)
        else if e = '/' then (parseStringBody fuel cs1).map fun p => ('/' :: p.1, p.2)
        else if e = 'b' then (parseStringBody fuel cs1).map fun p => (Char.ofNat 8 :: p.1, p.2)
        else if e = 'f' then (parseStringBody fuel cs1).map fun p => (Char.ofNat 12 :: p.1, p.2)
        else if e = 'n' then (parseStringBody fuel cs1).map fun p => (Char.ofNat 10 :: p.1, p.2)
        else if e = 'r' then (parseStringBody fuel cs1).map fun p => (Char.ofNat 13 :: p.1, p.2)
        else if e = 't' then (parseStringBody fuel cs1).map fun p => (Char.ofNat 9 :: p.1, p.2)
        else if e = 'u' then
          match cs1 with
          | h1 :: h2 :: h3 :: h4 :: cs2 =>
            match hex4Val h1 h2 h3 h4 with
            | none => none
            | some n =>
              if 55296 ≤ n ∧ n ≤ 56319 then
                match cs2 with
                | '\\' :: 'u' :: g1 :: g2 :: g3 :: g4 :: cs3 =>
                  match hex4Val g1 g2 g3 g4 with
                  | some m =>
                    if 56320 ≤ m ∧ m ≤ 57343 then
                      (parseStringBody fuel cs3).map fun p =>
                        (Char.ofNat (65536 + (n - 55296) * 1024 + (m - 56320)) :: p.1, p.2)
                    else
                      (parseStringBody fuel cs2).map fun p => (Char.ofNat n :: p.1, p.2)
                  | none => (parseStringBody fuel cs2).map fun p => (Char.ofNat n :: p.1, p.2)
                | _ => (parseStringBody fuel cs2).map fun p => (Char.ofNat n :: p.1, p.2)
              else (parseStringBody fuel cs2).map fun p => (Char.ofNat n :: p.1, p.2)
          | _ => none
        else none
    else if c.toNat < 32 then none
    else (parseStringBody fuel cs).map fun p => (c :: p.1, p.2)

/-- One scalar JSON value (the fragment reachable in a sort-value array):
literals, strings, integers. -/
def parseValue : List Char → Option (JValue × List Char)
  | [] => none
  | c :: cs =>
    if c = 'n' then
      match cs with
      | 'u' :: 'l' :: 'l' :: cs' => some (.null, cs')
      | _ => none
    else if c = 't' then
      match cs with
      | 'r' :: 'u' :: 'e' :: cs' => some (.bool true, cs')
      | _ => none
    else if c = 'f' then
      match cs with
      | 'a' :: 'l' :: 's' :: 'e' :: cs' => some (.bool false, cs')
      | _ => none
    else if c = '"' then
      (parseStringBody (cs.length + 1) cs).map fun p => (.str ⟨p.1⟩, p.2)
    else if c = '-' then
      match cs with
      | c2 :: cs' =>
        if isDigit c2 then
          let p := parseDigits cs' (c2.toNat - 48)
          some (.int (-(p.1 : Int)), p.2)
        else none
      | [] => none
    else if isDigit c then
      let p := parseDigits cs (c.toNat - 48)
      some (.int (p.1 : Int), p.2)
    else none

/-- The scanner's array items loop: value, optional whitespace, then `,`
(more items) or `]` (done).  `fuel` bounds the number of items; callers pass
more fuel than the input length, which one-char-minimum items cannot exhaust. -/
def parseItems : Nat → List Char → Option (List JValue × List Char)
  | 0, _ => none
  | fuel + 1, cs =>
    (parseValue cs).bind fun p =>
    match skipWs p.2 with
    | ',' :: cs2 => (parseItems fuel (skipWs cs2)).map fun q => (p.1 :: q.1, q.2)
    | ']' :: cs2 => some ([p.1], cs2)
    | _ => none

/-- `json.loads` on the array fragment: a bracketed item list and nothing but
trailing whitespace after it. -/
def loads (cs : List Char) : Option (List JValue) :=
  match skipWs cs with
  | '[' :: cs1 =>
    match skipWs cs1 with
    | ']' :: cs2 => if (skipWs cs2).isEmpty then some [] else none
    | cs2 =>
      (parseItems (cs2.length + 1) cs2).bind fun p =>
      if (skipWs p.2).isEmpty then some p.1 else none
  | _ => none

/-- `create_search_after_token`:
`base64.b64encode(json.dumps(sort_values).encode()).decode()`. -/
def create_search_after_token (sort_values : List JValue) : String :=
  ⟨b64encodeList (utf8Encode (dumps sort_values))⟩

/-- `decode_search_after_token`:
`json.loads(base64.b64decode(token.encode()).decode())`, with every failure
mapped to `HTTPException(400, "Invalid pagination token")` by the bare
`except`. -/
def decode_search_after_token (token : String) : Except PyExc (List JValue) :=
  match (b64decodeList token.data).bind fun bs =>
        (utf8Decode (bs.length + 1) bs).bind fun cs => loads cs with
  | some vs => .ok vs
  | none => .error (.http 400 "Invalid pagination token")

/-- A returned document: named field values (string-valued in the model). -/
abbrev Doc := List (String × String)

/-- Python truthiness of an `Optional[List[str]]`: `None` and `[]` are falsy. -/
def truthy : Option (List String) → Bool
  | none => false
  | some l => !l.isEmpty

/-- Python truthiness of an `Optional[str]`: `None` and `""` are falsy. -/
def truthyStr : Option String → Bool
  | none => false
  | some s => !s.isEmpty

/-- `filter_document_fields`: untouched when neither list is truthy; an
exclusion list drops its keys; otherwise an inclusion list keeps the listed
keys present in the document. -/
def filter_document_fields (doc : Doc)
    (fields exclude_fields : Option (List String)) : Doc :=
  if !truthy fields && !truthy exclude_fields then doc
  else if truthy exclude_fields then
    doc.filter fun kv => !(exclude_fields.getD []).contains kv.1
  else if truthy fields then
    ((fields.getD []).filter fun k => (doc.lookup k).isSome).map fun k =>
      (k, (doc.lookup k).getD "")
  else doc

/-- The parts of the `/search` request body that the validation and the
post-fetch filtering read. -/
structure SearchQuery where
  fields : Option (List String)
  exclude_fields : Option (List String)
deriving DecidableEq, Repr

/-- What a handler call did: how many times `es_client.search` ran, and the
response or the raised `HTTPException`. -/
structure HandlerOutcome where
  searchCalls : Nat
  result : Except PyExc (List Doc)
deriving Repr

/-- The `/search` endpoint.  The `try:` body validates the field lists,
executes the search (hits supplied by the `esHits` oracle) and filters the
hits; the trailing `except Exception as e: raise HTTPException(500, str(e))`
converts ANY exception raised inside the body — including the validation's
own `HTTPException(400)` — into a 500. -/
def search (q : SearchQuery) (esHits : List Doc) : HandlerOutcome :=
  let body : Nat × Except PyExc (List Doc) :=
    if truthy q.fields && truthy q.exclude_fields then
      (0, .error (.http 400 "Cannot specify both fields and exclude_fields"))
    else
      (1, .ok (esHits.map fun d => filter_document_fields d q.fields q.exclude_fields))
  match body with
  | (n, .ok r) => { searchCalls := n, result := .ok r }
  | (n, .error e) => { searchCalls := n, result := .error (.http 500 (strOfExc e)) }

/-- `','`-splitting of the scroll endpoint's `fields`/`exclude_fields` query
parameters (`fields.split(',') if fields else None`). -/
def splitFields (s : Option String) : Option (List String) :=
  if truthyStr s then some ((s.getD "").splitOn ",") else none

/-- The `/search/{index}/scroll` endpoint, same validation and the same
blanket `except Exception` wrapper; a given cursor is decoded with
`decode_search_after_token`, whose `HTTPException(400)` is likewise
swallowed and re-raised as a 500. -/
def scroll_search (cursor fields exclude_fields : Option String)
    (esHits : List Doc) : HandlerOutcome :=
  let body : Nat × Except PyExc (List Doc) :=
    if truthyStr fields && truthyStr exclude_fields then
      (0, .error (.http 400 "Cannot specify both fields and exclude_fields"))
    else
      let field_list := splitFields fields
      let exclude_list := splitFields exclude_fields
      match cursor with
      | some tok =>
        match decode_search_after_token tok with
        | .error e => (0, .error e)
        | .ok _ =>
          (1, .ok (esHits.map fun d => filter_document_fields d field_list exclude_list))
      | none =>
        (1, .ok (esHits.map fun d => filter_document_fields d field_list exclude_list))
  match body with
  | (n, .ok r) => { searchCalls := n, result := .ok r }
  | (n, .error e) => { searchCalls := n, result := .error (.http 500 (strOfExc e)) }

end ApiService

/-! ## Supporting lemmas -/

namespace SyncManager

/-- The exact-arithmetic embedding of `int(min_size * math.log10(remaining))`
agrees with the real-valued floor expression. -/
theorem floorMulLog10_eq (min_size remaining : Nat) :
    (floorMulLog10 min_size remaining : ℤ) =
      ⌊(min_size : ℝ) * Real.logb 10 remaining⌋ := by
  have h : (min_size : ℝ) * Real.logb 10 remaining =
      Real.logb 10 ((remaining ^ min_size : Nat) : ℝ) := by
    push_cast
    rw [Real.logb_pow]
  have h10 : (10 : ℝ) = ((10 : ℕ) : ℝ) := by norm_num
  rw [floorMulLog10, h, h10, Real.floor_logb_natCast (by positivity),
    Int.log_natCast]

/-- Below the ceiling the planner is `max(minBatch, remaining)`. -/
theorem calculate_batch_size_of_le_max (minB maxB r : ℕ) (h : r ≤ maxB) :
    calculate_batch_size ⟨some minB, some maxB⟩ r =
      if r ≤ minB then minB else r := by
  simp only [calculate_batch_size, Option.getD_some]
  by_cases h1 : r ≤ minB
  · rw [if_pos h1, if_pos h1]
  · rw [if_neg h1, if_neg h1, if_pos h]

/-- In the log regime the planner value, as an integer, is
`min maxBatch ⌊minBatch * log10 remaining⌋`. -/
theorem calculate_batch_size_of_gt_max (minB maxB r : ℕ)
    (hle : minB ≤ maxB) (h : maxB < r) :
    (calculate_batch_size ⟨some minB, some maxB⟩ r : ℤ) =
      min (maxB : ℤ) ⌊(minB : ℝ) * Real.logb 10 r⌋ := by
  simp only [calculate_batch_size, Option.getD_some,
    if_neg (by omega : ¬ r ≤ minB), if_neg (by omega : ¬ r ≤ maxB)]
  rw [Nat.cast_min, floorMulLog10_eq]

/-- Chunking with positive size and enough fuel reassembles the stream. -/
theorem chunkFuel_flatten {α : Type} :
    ∀ (fuel n : ℕ) (xs : List α), 0 < n → xs.length ≤ fuel →
      (chunkFuel fuel n xs).flatten = xs
  | 0, n, xs, _, hl => by
    have hx : xs = [] := List.length_eq_zero.mp (by omega)
    subst hx; rfl
  | fuel + 1, n, [], _, _ => rfl
  | fuel + 1, n, x :: xs, hn, hl => by
    simp only [chunkFuel, if_neg (by omega : ¬ n = 0), List.flatten_cons]
    rw [chunkFuel_flatten fuel n ((x :: xs).drop n) hn
      (by simp only [List.length_drop, List.length_cons] at *; omega)]
    exact List.take_append_drop n (x :: xs)

/-- `chunkList` with positive size reassembles the stream. -/
theorem chunkList_flatten {α : Type} (n : ℕ) (xs : List α) (hn : 0 < n) :
    (chunkList n xs).flatten = xs :=
  chunkFuel_flatten xs.length n xs hn le_rfl

/-- Chunks of a pairwise-ordered stream are pairwise ordered between each
other: every element of an earlier chunk relates to every element of a later
chunk. -/
theorem chunkList_pairwise {α : Type} (le : α → α → Prop) (n : ℕ)
    (xs : List α) (h : xs.Pairwise le) :
    (chunkList n xs).Pairwise fun b₁ b₂ => ∀ x ∈ b₁, ∀ y ∈ b₂, le x y := by
  rcases Nat.eq_zero_or_pos n with h0 | hn
  · subst h0
    cases xs <;> simp [chunkList, chunkFuel]
  · have hf := chunkList_flatten n xs hn
    have hiff := List.pairwise_flatten (L := chunkList n xs) (R := le)
    rw [hf] at hiff
    exact (hiff.mp h).2

/-- Membership in the fetched rows is exactly the `WHERE` clause. -/
theorem mem_fetchedRows (db : Db) (t : String) (r : Row) :
    r ∈ fetchedRows db t ↔ r ∈ db.rowsOf t ∧ db.watermark t < r.ts := by
  simp [fetchedRows, List.mem_insertionSort, List.mem_filter]

/-- The fetched rows are sorted by the timestamp column. -/
theorem fetchedRows_sorted (db : Db) (t : String) :
    (fetchedRows db t).Pairwise fun a b => a.ts ≤ b.ts := by
  haveI : IsTotal Row fun a b => a.ts ≤ b.ts := ⟨fun a b => le_total a.ts b.ts⟩
  haveI : IsTrans Row fun a b => a.ts ≤ b.ts :=
    ⟨fun _ _ _ hab hbc => le_trans hab hbc⟩
  exact List.sorted_insertionSort _ _

/-- Replacing the value at a present key makes the lookup read it back. -/
theorem lookup_map_replace :
    ∀ (l : List (String × Timestamp)) (t : String) (v : Timestamp),
      (l.lookup t).isSome = true →
      (l.map fun p => if p.1 = t then (p.1, v) else p).lookup t = some v
  | [], t, v, h => by simp [List.lookup] at h
  | (pk, pv) :: l, t, v, h => by
    by_cases hp : pk = t
    · subst hp
      have hm : ((pk, pv) :: l).map (fun p => if p.1 = pk then (p.1, v) else p) =
          (pk, v) :: l.map (fun p => if p.1 = pk then (p.1, v) else p) := by
        simp
      rw [hm, List.lookup, beq_self_eq_true]
    · have hbeq : (t == pk) = false := beq_eq_false_iff_ne.mpr (Ne.symm hp)
      have hm : ((pk, pv) :: l).map (fun p => if p.1 = t then (p.1, v) else p) =
          (pk, pv) :: l.map (fun p => if p.1 = t then (p.1, v) else p) := by
        simp [hp]
      rw [List.lookup, hbeq] at h
      rw [hm, List.lookup, hbeq]
      exact lookup_map_replace l t v h

/-- Appending a fresh key makes the lookup read it back. -/
theorem lookup_append_self :
    ∀ (l : List (String × Timestamp)) (t : String) (v : Timestamp),
      l.lookup t = none → ((l ++ [(t, v)]).lookup t) = some v
  | [], t, v, _ => by simp [List.lookup]
  | (pk, pv) :: l, t, v, h => by
    have hbeq : (t == pk) = false := by
      by_contra hc
      simp only [Bool.not_eq_false, beq_iff_eq] at hc
      subst hc
      rw [List.lookup, beq_self_eq_true] at h
      exact Option.noConfusion h
    rw [List.lookup, hbeq] at h
    rw [List.cons_append, List.lookup, hbeq]
    exact lookup_append_self l t v h

/-- The watermark upsert is readable back: the upserted key maps to the new
value. -/
theorem lookup_statusUpsert (db : Db) (t : String) (v : Timestamp) :
    ((db.statusUpsert t v).syncStatus).lookup t = some v := by
  unfold Db.statusUpsert
  by_cases h : (db.syncStatus.lookup t).isSome = true
  · simp only [h, if_true]
    exact lookup_map_replace db.syncStatus t v h
  · have h' : db.syncStatus.lookup t = none :=
      Option.not_isSome_iff_eq_none.mp (by simpa using h)
    simp only [Bool.not_eq_true] at h
    simp only [h, Bool.false_eq_true, if_false]
    exact lookup_append_self db.syncStatus t v h'

/-- `datetime.now()` is called exactly once per batch. -/
theorem syncBatches_nowCalls (env : SyncEnv) (c : TableConfig) :
    ∀ (bs : List (List Row)) (s : CycleState),
      (syncBatches env c s bs).nowCalls = s.nowCalls + bs.length
  | [], s => by simp [syncBatches]
  | b :: bs, s => by
    rw [syncBatches, syncBatches_nowCalls env c bs]
    simp only [List.length_cons]
    omega

/-- The operations of a batch run: one bulk write and one watermark upsert
per batch, failures only counted. -/
theorem syncBatches_trace (env : SyncEnv) (c : TableConfig) :
    ∀ (bs : List (List Row)) (s : CycleState),
      (syncBatches env c s bs).trace = s.trace ++ batchTrace env c s.nowCalls bs
  | [], s => by simp [syncBatches, batchTrace]
  | b :: bs, s => by
    rw [syncBatches, syncBatches_trace env c bs]
    simp [batchTrace, sync_batch]

/-- After a nonempty batch run the stored watermark is the clock value of the
last batch's status update. -/
theorem syncBatches_watermark (env : SyncEnv) (c : TableConfig) :
    ∀ (bs : List (List Row)) (s : CycleState), bs ≠ [] →
      ((syncBatches env c s bs).db.syncStatus).lookup c.name =
        some (env.clock (s.nowCalls + bs.length - 1))
  | [], _, h => absurd rfl h
  | [b], s, _ => by
    rw [syncBatches, syncBatches]
    simpa using lookup_statusUpsert s.db c.name (env.clock s.nowCalls)
  | b :: b' :: bs, s, _ => by
    rw [syncBatches, syncBatches_watermark env c (b' :: bs) _ (by simp)]
    simp only [List.length_cons]
    congr 2
    omega

/-- Unfolding of a successful `sync_table` run. -/
theorem sync_table_eq_ok (env : SyncEnv) (cfg : SyncConfig) (c : TableConfig)
    (s : CycleState) (h : env.schemaFails c.name = false) :
    sync_table env cfg c s = .ok (syncBatches env c
      { s with
        es := s.es.ensureIndex c.index_name
          (create_es_mapping (get_table_schema s.db c.name))
        trace := s.trace ++ [if (s.es.indices.lookup c.index_name).isSome
          then Event.putMapping c.index_name
          else Event.createIndex c.index_name] }
      (chunkList (calculate_batch_size cfg (remainingRecords s.db c.name))
        (fetchedRows s.db c.name))) := by
  rw [sync_table, if_neg (by rw [h]; exact Bool.false_ne_true)]

end SyncManager

/-! ## Claims -/

/-- C3: for `0 < minBatch ≤ maxBatch` the planner returns `minBatch` when
`remaining ≤ minBatch`, `remaining` when `minBatch < remaining ≤ maxBatch`,
and `min(maxBatch, floor(minBatch * log10 remaining))` when
`remaining > maxBatch`; for `minBatch = 100`, `maxBatch = 5000`,
`remaining = 1000000` it returns `600`. -/
theorem C3_batch_size_policy (minB maxB r : ℕ)
    (hmin : 0 < minB) (hle : minB ≤ maxB) :
    (r ≤ minB → SyncManager.calculate_batch_size ⟨some minB, some maxB⟩ r = minB) ∧
    (minB < r → r ≤ maxB →
      SyncManager.calculate_batch_size ⟨some minB, some maxB⟩ r = r) ∧
    (maxB < r → (SyncManager.calculate_batch_size ⟨some minB, some maxB⟩ r : ℤ) =
      min (maxB : ℤ) ⌊(minB : ℝ) * Real.logb 10 r⌋) ∧
    SyncManager.calculate_batch_size ⟨some 100, some 5000⟩ 1000000 = 600 := by
  refine ⟨fun h => ?_, fun h1 h2 => ?_, fun h => ?_, ?_⟩
  · rw [SyncManager.calculate_batch_size_of_le_max minB maxB r (le_trans h hle),
      if_pos h]
  · rw [SyncManager.calculate_batch_size_of_le_max minB maxB r h2,
      if_neg (by omega)]
  · exact SyncManager.calculate_batch_size_of_gt_max minB maxB r hle h
  · have hpow : (1000000 : ℕ) ^ 100 = 10 ^ 600 := by
      rw [show (1000000 : ℕ) = 10 ^ 6 by norm_num, ← pow_mul]
    simp only [SyncManager.calculate_batch_size, SyncManager.floorMulLog10,
      Option.getD_some, if_neg (by norm_num : ¬ (1000000 : ℕ) ≤ 100),
      if_neg (by norm_num : ¬ (1000000 : ℕ) ≤ 5000), hpow,
      Nat.log_pow (by norm_num : 1 < 10)]
    omega

/-- C3 witness: the policy instantiated at the configured defaults. -/
theorem C3_batch_size_policy_witness :
    (50 ≤ 100 → SyncManager.calculate_batch_size ⟨some 100, some 5000⟩ 50 = 100) ∧
    SyncManager.calculate_batch_size ⟨some 100, some 5000⟩ 1000000 = 600 := by
  have h := C3_batch_size_policy 100 5000 50 (by decide) (by decide)
  exact ⟨h.1, h.2.2.2⟩

/-- C4 counterexample: with `minBatch = 1 ≤ maxBatch = 2` and
`remaining = 3` the planner returns `0`, strictly below `minBatch` — the
claimed lower bound fails for configurations whose ceiling is below the
logarithm base. -/
theorem C4_counterexample :
    0 < 1 ∧ (1 : ℕ) ≤ 2 ∧
    SyncManager.calculate_batch_size ⟨some 1, some 2⟩ 3 = 0 := by
  refine ⟨by decide, by decide, ?_⟩
  have h3 : Nat.log 10 (3 ^ 1) = 0 :=
    Nat.log_eq_zero_iff.mpr (Or.inl (by norm_num))
  simp only [SyncManager.calculate_batch_size, SyncManager.floorMulLog10,
    Option.getD_some, if_neg (by norm_num : ¬ (3 : ℕ) ≤ 1),
    if_neg (by norm_num : ¬ (3 : ℕ) ≤ 2), h3]
  omega

/-- C4 amended: for `0 < minBatch ≤ maxBatch` with `9 ≤ maxBatch` (so that
any backlog past the ceiling has `log10 remaining ≥ 1`; the defaults 100/5000
qualify), the planner is monotone below the ceiling and always stays within
`[minBatch, maxBatch]`. -/
theorem C4_amended_planner_bounds (minB maxB : ℕ)
    (hmin : 0 < minB) (hle : minB ≤ maxB) (h9 : 9 ≤ maxB) :
    (∀ r1 r2, r1 ≤ r2 → r2 ≤ maxB →
      SyncManager.calculate_batch_size ⟨some minB, some maxB⟩ r1 ≤
        SyncManager.calculate_batch_size ⟨some minB, some maxB⟩ r2) ∧
    (∀ r, minB ≤ SyncManager.calculate_batch_size ⟨some minB, some maxB⟩ r ∧
      SyncManager.calculate_batch_size ⟨some minB, some maxB⟩ r ≤ maxB) := by
  constructor
  · intro r1 r2 h12 h2max
    rw [SyncManager.calculate_batch_size_of_le_max minB maxB r1 (le_trans h12 h2max),
      SyncManager.calculate_batch_size_of_le_max minB maxB r2 h2max]
    split <;> split <;> omega
  · intro r
    by_cases hr : r ≤ maxB
    · rw [SyncManager.calculate_batch_size_of_le_max minB maxB r hr]
      split <;> omega
    · have hlog : minB ≤ Nat.log 10 (r ^ minB) := by
        calc minB = Nat.log 10 (10 ^ minB) :=
              (Nat.log_pow (by norm_num) minB).symm
          _ ≤ Nat.log 10 (r ^ minB) :=
              Nat.log_mono_right (Nat.pow_le_pow_left (by omega) minB)
      simp only [SyncManager.calculate_batch_size, SyncManager.floorMulLog10,
        Option.getD_some, if_neg (by omega : ¬ r ≤ minB), if_neg hr]
      omega

/-- C4 amended witness: instantiated at the configured defaults. -/
theorem C4_amended_planner_bounds_witness :
    100 ≤ SyncManager.calculate_batch_size ⟨some 100, some 5000⟩ 7 ∧
    SyncManager.calculate_batch_size ⟨some 100, some 5000⟩ 7 ≤ 5000 :=
  (C4_amended_planner_bounds 100 5000 (by decide) (by decide) (by decide)).2 7

/-- C1: [the code contradicts the claim] after the sample cycle the stored
watermark is the wall-clock reading of `datetime.now()` at the status update
(`100` under `sampleEnv`), not the maximum timestamp among the fetched rows
(`5`): `sync_table` upserts `datetime.now()` into `sync_status`, never the
row timestamps it fetched. -/
theorem C1_watermark_stores_wall_clock_not_max_timestamp :
    ∃ s', SyncManager.sync_table SyncManager.sampleEnv SyncManager.sampleCfg
        SyncManager.sampleTable SyncManager.sampleState = .ok s' ∧
      SyncManager.fetchedRows SyncManager.sampleDb "users" = [SyncManager.sampleRow] ∧
      SyncManager.sampleRow.ts = 5 ∧
      s'.db.watermark "users" = 100 := by
  exact ⟨_, rfl, by decide, rfl, by decide⟩

/-- C2 counterexample: the cycle is configured with `[orders, users]`; schema
introspection raises for `orders`, and the whole cycle aborts with the state
unchanged — `users`, which has one pending row, is NOT synced in this cycle:
no document reaches the index and no watermark is written for it. -/
theorem C2_counterexample :
    SyncManager.envOrdersSchemaFails.schemaFails "orders" = true ∧
    SyncManager.remainingRecords SyncManager.sampleDb "users" = 1 ∧
    SyncManager.runCycle SyncManager.envOrdersSchemaFails SyncManager.sampleCfg
        [SyncManager.ordersTable, SyncManager.sampleTable] SyncManager.sampleState =
      (SyncManager.sampleState, some (.schemaError "orders")) := by
  refine ⟨rfl, by decide, by decide⟩

/-- C2 amended: an error raised while syncing one table aborts the rest of
the cycle at that point: tables before the failing one keep their completed
syncs, but neither the failing table nor any table after it is synced in the
same cycle, and the state — in particular the failing table's watermark — is
exactly what it was when the failure hit. -/
theorem C2_amended_error_aborts_rest_of_cycle (env : SyncManager.SyncEnv)
    (cfg : SyncManager.SyncConfig) (pre : List SyncManager.TableConfig)
    (c : SyncManager.TableConfig) (rest : List SyncManager.TableConfig)
    (s s₁ : SyncManager.CycleState) (e : SyncManager.SyncError)
    (hpre : SyncManager.runCycle env cfg pre s = (s₁, none))
    (hc : SyncManager.sync_table env cfg c s₁ = .error e) :
    SyncManager.runCycle env cfg (pre ++ c :: rest) s = (s₁, some e) := by
  induction pre generalizing s with
  | nil =>
    rw [SyncManager.runCycle] at hpre
    obtain ⟨rfl, -⟩ := Prod.mk.injEq .. ▸ hpre
    rw [List.nil_append, SyncManager.runCycle, hc]
  | cons p pre ih =>
    rw [SyncManager.runCycle] at hpre
    rw [List.cons_append, SyncManager.runCycle]
    cases hp : SyncManager.sync_table env cfg p s with
    | ok s'' =>
      rw [hp] at hpre
      exact ih s'' hpre
    | error e' =>
      rw [hp] at hpre
      exact absurd (congrArg Prod.snd hpre) (by simp)

/-- C2 amended witness: `users` syncs first, then `orders` fails; the cycle
result is the post-`users` state with the error, untouched by the trailing
`users` entry. -/
theorem C2_amended_error_aborts_rest_of_cycle_witness :
    ∃ s₁, SyncManager.runCycle SyncManager.envOrdersSchemaFails SyncManager.sampleCfg
        [SyncManager.sampleTable] SyncManager.sampleState = (s₁, none) ∧
      SyncManager.runCycle SyncManager.envOrdersSchemaFails SyncManager.sampleCfg
        ([SyncManager.sampleTable] ++ SyncManager.ordersTable :: [SyncManager.sampleTable])
        SyncManager.sampleState = (s₁, some (.schemaError "orders")) := by
  refine ⟨_, rfl, ?_⟩
  exact C2_amended_error_aborts_rest_of_cycle SyncManager.envOrdersSchemaFails
    SyncManager.sampleCfg [SyncManager.sampleTable] SyncManager.ordersTable
    [SyncManager.sampleTable] SyncManager.sampleState _ (.schemaError "orders") rfl rfl

/-- C5: a table with zero backlog is short-circuited: `sync_table` succeeds
having issued no batch — no bulk write, no `datetime.now()` call, no
watermark update; the database is untouched and only the per-cycle index
metadata update happens. -/
theorem C5_zero_backlog_short_circuit (env : SyncManager.SyncEnv)
    (cfg : SyncManager.SyncConfig) (c : SyncManager.TableConfig)
    (s : SyncManager.CycleState)
    (hschema : env.schemaFails c.name = false)
    (hzero : SyncManager.remainingRecords s.db c.name = 0) :
    SyncManager.sync_table env cfg c s = .ok
      { db := s.db
        es := s.es.ensureIndex c.index_name
          (SyncManager.create_es_mapping (SyncManager.get_table_schema s.db c.name))
        nowCalls := s.nowCalls
        trace := s.trace ++ [if (s.es.indices.lookup c.index_name).isSome
          then SyncManager.Event.putMapping c.index_name
          else SyncManager.Event.createIndex c.index_name] } := by
  have hfil : (s.db.rowsOf c.name).filter
      (fun r => s.db.watermark c.name < r.ts) = [] := by
    rw [SyncManager.remainingRecords] at hzero
    exact List.length_eq_zero.mp hzero
  have hfetch : SyncManager.fetchedRows s.db c.name = [] := by
    rw [SyncManager.fetchedRows, hfil]
    rfl
  rw [SyncManager.sync_table_eq_ok env cfg c s hschema, hfetch]
  rfl

/-- C5 witness: `drainedState`'s `users` row (timestamp 5) is at or below the
stored watermark 10, so its sync issues nothing. -/
theorem C5_zero_backlog_short_circuit_witness :
    SyncManager.rejectingEnv.schemaFails "users" = false ∧
    SyncManager.remainingRecords SyncManager.drainedDb "users" = 0 ∧
    SyncManager.sync_table SyncManager.rejectingEnv SyncManager.sampleCfg
      SyncManager.sampleTable SyncManager.drainedState = .ok
      { db := SyncManager.drainedState.db
        es := SyncManager.drainedState.es.ensureIndex "users_idx"
          (SyncManager.create_es_mapping
            (SyncManager.get_table_schema SyncManager.drainedState.db "users"))
        nowCalls := SyncManager.drainedState.nowCalls
        trace := SyncManager.drainedState.trace ++
          [if (SyncManager.drainedState.es.indices.lookup "users_idx").isSome
            then SyncManager.Event.putMapping "users_idx"
            else SyncManager.Event.createIndex "users_idx"] } :=
  ⟨rfl, by decide,
   C5_zero_backlog_short_circuit SyncManager.rejectingEnv SyncManager.sampleCfg
     SyncManager.sampleTable SyncManager.drainedState rfl (by decide)⟩

/-- C6: the fetched rows are exactly the table rows with timestamp strictly
above the watermark; the watermark defaults to the epoch (`0`) when no
`sync_status` record exists, so such a first cycle fetches every row with a
positive timestamp; the fetch is ascending in the timestamp column, hence
every row of an earlier batch is at or below every row of a later batch. -/
theorem C6_fetch_filter_default_and_order (db : SyncManager.Db) (t : String)
    (cfg : SyncManager.SyncConfig) :
    (∀ r, r ∈ SyncManager.fetchedRows db t ↔
      r ∈ db.rowsOf t ∧ db.watermark t < r.ts) ∧
    (db.syncStatus.lookup t = none → db.watermark t = 0) ∧
    ((db.syncStatus.lookup t = none ∧ ∀ r ∈ db.rowsOf t, 0 < r.ts) →
      ∀ r ∈ db.rowsOf t, r ∈ SyncManager.fetchedRows db t) ∧
    (SyncManager.fetchedRows db t).Pairwise (fun a b => a.ts ≤ b.ts) ∧
    (SyncManager.chunkList
        (SyncManager.calculate_batch_size cfg (SyncManager.remainingRecords db t))
        (SyncManager.fetchedRows db t)).Pairwise
      fun b₁ b₂ => ∀ x ∈ b₁, ∀ y ∈ b₂, x.ts ≤ y.ts := by
  refine ⟨SyncManager.mem_fetchedRows db t, ?_, ?_,
    SyncManager.fetchedRows_sorted db t, ?_⟩
  · intro h
    simp [SyncManager.Db.watermark, h]
  · rintro ⟨hnone, hpos⟩ r hr
    refine (SyncManager.mem_fetchedRows db t r).mpr ⟨hr, ?_⟩
    simpa [SyncManager.Db.watermark, hnone] using hpos r hr
  · exact SyncManager.chunkList_pairwise _ _ _ (SyncManager.fetchedRows_sorted db t)

/-- C6 witness: the filter and the epoch default instantiated on the sample
database, whose `users` table has no `sync_status` record. -/
theorem C6_fetch_filter_default_and_order_witness :
    (SyncManager.sampleRow ∈ SyncManager.fetchedRows SyncManager.sampleDb "users" ↔
      SyncManager.sampleRow ∈ SyncManager.sampleDb.rowsOf "users" ∧
      SyncManager.sampleDb.watermark "users" < SyncManager.sampleRow.ts) ∧
    SyncManager.sampleDb.watermark "users" = 0 :=
  ⟨(C6_fetch_filter_default_and_order SyncManager.sampleDb "users"
      SyncManager.sampleCfg).1 SyncManager.sampleRow,
   (C6_fetch_filter_default_and_order SyncManager.sampleDb "users"
      SyncManager.sampleCfg).2.1 rfl⟩

/-- C7: per-document index rejections never raise and never abort the rest of
the table's cycle: the whole batch run succeeds; every batch — also one with
rejected documents — contributes one bulk write counting the well-formed
documents as successes and the rejected ones only as a reported count, and is
followed by its own watermark upsert; after a nonempty run the watermark
stands at the last batch's status-update time. -/
theorem C7_partial_failures_only_reported (env : SyncManager.SyncEnv)
    (cfg : SyncManager.SyncConfig) (c : SyncManager.TableConfig)
    (s : SyncManager.CycleState)
    (hschema : env.schemaFails c.name = false) :
    ∃ s', SyncManager.sync_table env cfg c s = .ok s' ∧
      s'.nowCalls = s.nowCalls + (SyncManager.chunkList
        (SyncManager.calculate_batch_size cfg (SyncManager.remainingRecords s.db c.name))
        (SyncManager.fetchedRows s.db c.name)).length ∧
      s'.trace = s.trace ++
        [if (s.es.indices.lookup c.index_name).isSome
          then SyncManager.Event.putMapping c.index_name
          else SyncManager.Event.createIndex c.index_name] ++
        SyncManager.batchTrace env c s.nowCalls (SyncManager.chunkList
          (SyncManager.calculate_batch_size cfg (SyncManager.remainingRecords s.db c.name))
          (SyncManager.fetchedRows s.db c.name)) ∧
      ((SyncManager.chunkList
          (SyncManager.calculate_batch_size cfg (SyncManager.remainingRecords s.db c.name))
          (SyncManager.fetchedRows s.db c.name)) ≠ [] →
        s'.db.syncStatus.lookup c.name = some (env.clock (s.nowCalls +
          (SyncManager.chunkList
            (SyncManager.calculate_batch_size cfg (SyncManager.remainingRecords s.db c.name))
            (SyncManager.fetchedRows s.db c.name)).length - 1))) := by
  refine ⟨_, SyncManager.sync_table_eq_ok env cfg c s hschema, ?_, ?_, ?_⟩
  · rw [SyncManager.syncBatches_nowCalls]
  · rw [SyncManager.syncBatches_trace]
  · intro hne
    rw [SyncManager.syncBatches_watermark env c _ _ hne]

/-- C7 witness: with an index rejecting document id `"1"`, the two-row table
still syncs in one batch and its watermark is written at that batch's
status-update time (`clock 0 = 100`). -/
theorem C7_partial_failures_only_reported_witness :
    SyncManager.rejectingEnv.schemaFails "users" = false ∧
    ∃ s', SyncManager.sync_table SyncManager.rejectingEnv SyncManager.sampleCfg
        SyncManager.sampleTable SyncManager.twoRowState = .ok s' ∧
      s'.db.syncStatus.lookup SyncManager.sampleTable.name = some 100 := by
  refine ⟨rfl, ?_⟩
  obtain ⟨s', hok, -, -, hwm⟩ := C7_partial_failures_only_reported
    SyncManager.rejectingEnv SyncManager.sampleCfg SyncManager.sampleTable
    SyncManager.twoRowState rfl
  refine ⟨s', hok, ?_⟩
  rw [hwm (by decide)]
  decide

/-- C8: the mapping translation is table-driven and deterministic: a
recognized source type (after lowercasing) maps to its entry in the fixed
table; an unrecognized type falls back to the exact-match `keyword`; exactly
the columns mapped to the full-text type `text` carry the `keyword` sub-field
truncated at 256 characters. -/
theorem C8_mapping_table_driven (schema : List (String × String)) :
    (∀ col d, (col, d) ∈ schema →
      SyncManager.pg_to_es_type.lookup (SyncManager.strLower d) = none →
      (col, { type := "keyword", fields := none }) ∈
        SyncManager.create_es_mapping schema) ∧
    (∀ col d es_t, (col, d) ∈ schema →
      SyncManager.pg_to_es_type.lookup (SyncManager.strLower d) = some es_t → es_t ≠ "text" →
      (col, { type := es_t, fields := none }) ∈
        SyncManager.create_es_mapping schema) ∧
    (∀ col d, (col, d) ∈ schema →
      SyncManager.pg_to_es_type.lookup (SyncManager.strLower d) = some "text" →
      (col, { type := "text",
              fields := some { type := "keyword", ignore_above := 256 } }) ∈
        SyncManager.create_es_mapping schema) ∧
    (∀ col fm, (col, fm) ∈ SyncManager.create_es_mapping schema →
      (fm.fields = some { type := "keyword", ignore_above := 256 } ↔
        fm.type = "text")) := by
  refine ⟨?_, ?_, ?_, ?_⟩
  · intro col d hmem hlookup
    refine List.mem_map.mpr ⟨(col, d), hmem, ?_⟩
    simp [hlookup]
  · intro col d es_t hmem hlookup hne
    refine List.mem_map.mpr ⟨(col, d), hmem, ?_⟩
    simp [hlookup, hne]
  · intro col d hmem hlookup
    refine List.mem_map.mpr ⟨(col, d), hmem, ?_⟩
    simp [hlookup]
  · intro col fm hmem
    obtain ⟨⟨c0, d0⟩, hmem0, heq⟩ := List.mem_map.mp hmem
    obtain ⟨rfl, rfl⟩ : c0 = col ∧
        ({ type := (SyncManager.pg_to_es_type.lookup (SyncManager.strLower d0)).getD "keyword",
           fields := if (SyncManager.pg_to_es_type.lookup (SyncManager.strLower d0)).getD "keyword" = "text"
             then some { type := "keyword", ignore_above := 256 }
             else none } : SyncManager.FieldMapping) = fm := by
      exact ⟨congrArg Prod.fst heq, congrArg Prod.snd heq⟩
    by_cases ht : (SyncManager.pg_to_es_type.lookup (SyncManager.strLower d0)).getD "keyword" = "text"
    · simp [ht]
    · simp [ht]

/-- C8 witness: the translation on a sample schema with a recognized
non-text type, a full-text column and an unrecognized type. -/
theorem C8_mapping_table_driven_witness :
    (("id", ({ type := "integer", fields := none } : SyncManager.FieldMapping)) ∈
      SyncManager.create_es_mapping
        [("id", "integer"), ("bio", "text"), ("price", "MONEY")]) ∧
    (("bio", ({ type := "text", fields := some { type := "keyword", ignore_above := 256 } } : SyncManager.FieldMapping)) ∈
      SyncManager.create_es_mapping
        [("id", "integer"), ("bio", "text"), ("price", "MONEY")]) ∧
    (("price", ({ type := "keyword", fields := none } : SyncManager.FieldMapping)) ∈
      SyncManager.create_es_mapping
        [("id", "integer"), ("bio", "text"), ("price", "MONEY")]) :=
  ⟨(C8_mapping_table_driven _).2.1 "id" "integer" "integer" (by decide) (by decide)
      (by decide),
   (C8_mapping_table_driven _).2.2.1 "bio" "text" (by decide) (by decide),
   (C8_mapping_table_driven _).1 "price" "MONEY" (by decide) (by decide)⟩

/-- C9: [the code contradicts the claim's status] a request supplying both a
(truthy) field-inclusion list and a field-exclusion list is rejected before
any search executes — but as a 500 server error, not an invalid-request
client error: the endpoint's own `HTTPException(400, ...)` is raised inside
the `try:` whose blanket `except Exception` re-raises it as
`HTTPException(500, str(e))`.  Both `/search` and the scroll endpoint show
the same behaviour. -/
theorem C9_both_lists_rejected_as_500_not_400 :
    (ApiService.search { fields := some ["a"], exclude_fields := some ["b"] }
        [[("a", "1"), ("b", "2")]]).searchCalls = 0 ∧
    (ApiService.search { fields := some ["a"], exclude_fields := some ["b"] }
        [[("a", "1"), ("b", "2")]]).result =
      .error (.http 500 "400: Cannot specify both fields and exclude_fields") ∧
    (ApiService.scroll_search none (some "a") (some "b") []).searchCalls = 0 ∧
    (ApiService.scroll_search none (some "a") (some "b") []).result =
      .error (.http 500 "400: Cannot specify both fields and exclude_fields") :=
  ⟨rfl, rfl, rfl, rfl⟩

namespace ApiService

/-- The decoder's table inverts the encoder's alphabet. -/
theorem b64IndexOf_b64Char : ∀ n, n < 64 → b64IndexOf (b64Char n) = some n := by
  decide

/-- Alphabet characters are never the padding character. -/
theorem b64Char_ne_pad : ∀ n, n < 64 → b64Char n ≠ '=' := by
  decide

/-- `base64.b64decode` inverts `base64.b64encode` on byte lists. -/
theorem b64_roundtrip : ∀ bs : List Nat, (∀ b ∈ bs, b < 256) →
    b64decodeList (b64encodeList bs) = some bs
  | [], _ => rfl
  | [a], h => by
    have ha : a < 256 := h a (by simp)
    rw [b64encodeList, b64decodeList, b64IndexOf_b64Char (a / 4) (by omega),
      b64IndexOf_b64Char (a % 4 * 16) (by omega)]
    simp only [Option.some_bind]
    simp only [and_self, if_true]
    have e1 : a / 4 * 4 + a % 4 * 16 / 16 = a := by omega
    rw [e1]
  | [a, b], h => by
    have ha : a < 256 := h a (by simp)
    have hb : b < 256 := h b (by simp)
    rw [b64encodeList, b64decodeList, b64IndexOf_b64Char (a / 4) (by omega),
      b64IndexOf_b64Char (a % 4 * 16 + b / 16) (by omega)]
    simp only [Option.some_bind]
    rw [if_neg (b64Char_ne_pad _ (by omega)),
      b64IndexOf_b64Char (b % 16 * 4) (by omega)]
    simp only [Option.some_bind]
    simp only [if_true]
    have e1 : a / 4 * 4 + (a % 4 * 16 + b / 16) / 16 = a := by omega
    have e2 : (a % 4 * 16 + b / 16) % 16 * 16 + b % 16 * 4 / 4 = b := by omega
    rw [e1, e2]
  | a :: b :: c :: rest, h => by
    have ha : a < 256 := h a (by simp)
    have hb : b < 256 := h b (by simp)
    have hc : c < 256 := h c (by simp)
    rw [b64encodeList, b64decodeList, b64IndexOf_b64Char (a / 4) (by omega),
      b64IndexOf_b64Char (a % 4 * 16 + b / 16) (by omega)]
    simp only [Option.some_bind]
    rw [if_neg (b64Char_ne_pad _ (by omega)),
      b64IndexOf_b64Char (b % 16 * 4 + c / 64) (by omega)]
    simp only [Option.some_bind]
    rw [if_neg (b64Char_ne_pad _ (by omega)),
      b64IndexOf_b64Char (c % 64) (by omega)]
    simp only [Option.some_bind]
    rw [b64_roundtrip rest (fun x hx => h x (by simp [hx]))]
    simp only [Option.map_some']
    have e1 : a / 4 * 4 + (a % 4 * 16 + b / 16) / 16 = a := by omega
    have e2 : (a % 4 * 16 + b / 16) % 16 * 16 + (b % 16 * 4 + c / 64) / 4 = b := by omega
    have e3 : (b % 16 * 4 + c / 64) % 4 * 64 + c % 64 = c := by omega
    rw [e1, e2, e3]

end ApiService
namespace ApiService

/-- Generic `Char.ofNat`/`toNat` inversion for valid code points. -/
theorem toNat_ofNat_of_valid {n : Nat} (h : n.isValidChar) :
    (Char.ofNat n).toNat = n := by
  rw [Char.ofNat, dif_pos h]
  rfl

/-- `Char.ofNat`/`toNat` inversion below the surrogate range. -/
theorem toNat_ofNat_lt {n : Nat} (h : n < 55296) : (Char.ofNat n).toNat = n :=
  toNat_ofNat_of_valid (Or.inl h)

/-- A character's code point is never a surrogate and is below `0x110000`. -/
theorem char_toNat_valid (c : Char) :
    c.toNat < 55296 ∨ (57343 < c.toNat ∧ c.toNat < 1114112) :=
  c.valid

/-- `str.encode()` of pure-ASCII text is the characterwise code-point list. -/
theorem utf8Encode_ascii : ∀ cs : List Char, (∀ c ∈ cs, c.toNat < 128) →
    utf8Encode cs = cs.map Char.toNat
  | [], _ => rfl
  | c :: cs, h => by
    have hc : c.toNat < 128 := h c (by simp)
    have ih := utf8Encode_ascii cs (fun x hx => h x (by simp [hx]))
    simp only [utf8Encode, List.map_cons, List.flatten_cons] at ih ⊢
    rw [ih, utf8EncodeChar, if_pos hc]
    rfl

/-- `bytes.decode()` of pure-ASCII bytes with enough fuel is the
characterwise inverse. -/
theorem utf8Decode_ascii : ∀ (cs : List Char) (fuel : Nat),
    cs.length < fuel → (∀ c ∈ cs, c.toNat < 128) →
    utf8Decode fuel (cs.map Char.toNat) = some cs
  | [], fuel + 1, _, _ => rfl
  | c :: cs, fuel + 1, hf, h => by
    have hc : c.toNat < 128 := h c (by simp)
    rw [List.map_cons]
    simp only [utf8Decode]
    rw [if_pos hc,
      utf8Decode_ascii cs fuel (by simpa using hf) (fun x hx => h x (by simp [hx]))]
    simp

end ApiService
namespace ApiService

/-- Characters with equal code points are equal. -/
theorem char_toNat_inj {a b : Char} (h : a.toNat = b.toNat) : a = b := by
  apply Char.ext
  exact UInt32.toNat.inj h

theorem escapeChar_quote {c : Char} (h : c = '"') : escapeChar c = ['\\', '"'] := by
  subst h; rfl

theorem escapeChar_backslash {c : Char} (h : c = '\\') :
    escapeChar c = ['\\', '\\'] := by
  subst h; rfl

theorem escapeChar_b {c : Char} (h : c.toNat = 8) : escapeChar c = ['\\', 'b'] := by
  have hq : ¬ c = '"' := fun e => by subst e; exact absurd h (by decide)
  have hb : ¬ c = '\\' := fun e => by subst e; exact absurd h (by decide)
  rw [escapeChar, if_neg hq, if_neg hb, if_pos h]

theorem escapeChar_t {c : Char} (h : c.toNat = 9) : escapeChar c = ['\\', 't'] := by
  have hq : ¬ c = '"' := fun e => by subst e; exact absurd h (by decide)
  have hb : ¬ c = '\\' := fun e => by subst e; exact absurd h (by decide)
  rw [escapeChar, if_neg hq, if_neg hb, if_neg (by omega), if_pos h]

theorem escapeChar_n {c : Char} (h : c.toNat = 10) : escapeChar c = ['\\', 'n'] := by
  have hq : ¬ c = '"' := fun e => by subst e; exact absurd h (by decide)
  have hb : ¬ c = '\\' := fun e => by subst e; exact absurd h (by decide)
  rw [escapeChar, if_neg hq, if_neg hb, if_neg (by omega), if_neg (by omega),
    if_pos h]

theorem escapeChar_f {c : Char} (h : c.toNat = 12) : escapeChar c = ['\\', 'f'] := by
  have hq : ¬ c = '"' := fun e => by subst e; exact absurd h (by decide)
  have hb : ¬ c = '\\' := fun e => by subst e; exact absurd h (by decide)
  rw [escapeChar, if_neg hq, if_neg hb, if_neg (by omega), if_neg (by omega),
    if_neg (by omega), if_pos h]

theorem escapeChar_r {c : Char} (h : c.toNat = 13) : escapeChar c = ['\\', 'r'] := by
  have hq : ¬ c = '"' := fun e => by subst e; exact absurd h (by decide)
  have hb : ¬ c = '\\' := fun e => by subst e; exact absurd h (by decide)
  rw [escapeChar, if_neg hq, if_neg hb, if_neg (by omega), if_neg (by omega),
    if_neg (by omega), if_neg (by omega), if_pos h]

theorem escapeChar_ctrl {c : Char} (h : c.toNat < 32)
    (h8 : c.toNat ≠ 8) (h9 : c.toNat ≠ 9) (h10 : c.toNat ≠ 10)
    (h12 : c.toNat ≠ 12) (h13 : c.toNat ≠ 13) :
    escapeChar c = '\\' :: 'u' :: hex4 c.toNat := by
  have hq : ¬ c = '"' := fun e => by subst e; exact absurd h (by decide)
  have hb : ¬ c = '\\' := fun e => by subst e; exact absurd h (by decide)
  rw [escapeChar, if_neg hq, if_neg hb, if_neg h8, if_neg h9, if_neg h10,
    if_neg h12, if_neg h13, if_pos h]

theorem escapeChar_printable {c : Char} (h32 : 32 ≤ c.toNat) (h127 : c.toNat < 127)
    (hq : c ≠ '"') (hb : c ≠ '\\') : escapeChar c = [c] := by
  have e8 : ¬ c.toNat = 8 := by omega
  have e9 : ¬ c.toNat = 9 := by omega
  have e10 : ¬ c.toNat = 10 := by omega
  have e12 : ¬ c.toNat = 12 := by omega
  have e13 : ¬ c.toNat = 13 := by omega
  have e32 : ¬ c.toNat < 32 := by omega
  rw [escapeChar, if_neg hq, if_neg hb, if_neg e8, if_neg e9, if_neg e10,
    if_neg e12, if_neg e13, if_neg e32, if_pos h127]

theorem escapeChar_bmp {c : Char} (h127 : 127 ≤ c.toNat) (h64 : c.toNat < 65536) :
    escapeChar c = '\\' :: 'u' :: hex4 c.toNat := by
  have hq : ¬ c = '"' := fun e => by subst e; exact absurd h127 (by decide)
  have hb : ¬ c = '\\' := fun e => by subst e; exact absurd h127 (by decide)
  have e8 : ¬ c.toNat = 8 := by omega
  have e9 : ¬ c.toNat = 9 := by omega
  have e10 : ¬ c.toNat = 10 := by omega
  have e12 : ¬ c.toNat = 12 := by omega
  have e13 : ¬ c.toNat = 13 := by omega
  have e32 : ¬ c.toNat < 32 := by omega
  have e127 : ¬ c.toNat < 127 := by omega
  rw [escapeChar, if_neg hq, if_neg hb, if_neg e8, if_neg e9, if_neg e10,
    if_neg e12, if_neg e13, if_neg e32, if_neg e127, if_pos h64]

theorem escapeChar_astral {c : Char} (h : 65536 ≤ c.toNat) :
    escapeChar c =
      ('\\' :: 'u' :: hex4 (55296 + (c.toNat - 65536) / 1024)) ++
      ('\\' :: 'u' :: hex4 (56320 + (c.toNat - 65536) % 1024)) := by
  have hq : ¬ c = '"' := fun e => by subst e; exact absurd h (by decide)
  have hb : ¬ c = '\\' := fun e => by subst e; exact absurd h (by decide)
  have e8 : ¬ c.toNat = 8 := by omega
  have e9 : ¬ c.toNat = 9 := by omega
  have e10 : ¬ c.toNat = 10 := by omega
  have e12 : ¬ c.toNat = 12 := by omega
  have e13 : ¬ c.toNat = 13 := by omega
  have e32 : ¬ c.toNat < 32 := by omega
  have e127 : ¬ c.toNat < 127 := by omega
  have e64k : ¬ c.toNat < 65536 := by omega
  rw [escapeChar, if_neg hq, if_neg hb, if_neg e8, if_neg e9, if_neg e10,
    if_neg e12, if_neg e13, if_neg e32, if_neg e127, if_neg e64k]

end ApiService
namespace ApiService

/-- Hex digits are ASCII. -/
theorem hexDigitChar_ascii : ∀ n, n < 16 → (hexDigitChar n).toNat < 128 := by
  decide

/-- All four characters of a `\uXXXX` payload are ASCII. -/
theorem hex4_ascii (n : Nat) : ∀ x ∈ hex4 n, x.toNat < 128 := by
  intro x hx
  simp only [hex4, List.mem_cons, List.not_mem_nil, or_false] at hx
  rcases hx with rfl | rfl | rfl | rfl <;>
    exact hexDigitChar_ascii _ (Nat.mod_lt _ (by norm_num))

/-- Every character an escape produces is ASCII (`ensure_ascii`). -/
theorem escapeChar_ascii (c : Char) : ∀ x ∈ escapeChar c, x.toNat < 128 := by
  intro x hx
  by_cases hq : c = '"'
  · rw [escapeChar_quote hq] at hx
    rcases List.mem_cons.mp hx with rfl | hx
    · decide
    · rcases List.mem_singleton.mp hx with rfl
      decide
  by_cases hb : c = '\\'
  · rw [escapeChar_backslash hb] at hx
    rcases List.mem_cons.mp hx with rfl | hx
    · decide
    · rcases List.mem_singleton.mp hx with rfl
      decide
  by_cases h8 : c.toNat = 8
  · rw [escapeChar_b h8] at hx
    rcases List.mem_cons.mp hx with rfl | hx
    · decide
    · rcases List.mem_singleton.mp hx with rfl
      decide
  by_cases h9 : c.toNat = 9
  · rw [escapeChar_t h9] at hx
    rcases List.mem_cons.mp hx with rfl | hx
    · decide
    · rcases List.mem_singleton.mp hx with rfl
      decide
  by_cases h10 : c.toNat = 10
  · rw [escapeChar_n h10] at hx
    rcases List.mem_cons.mp hx with rfl | hx
    · decide
    · rcases List.mem_singleton.mp hx with rfl
      decide
  by_cases h12 : c.toNat = 12
  · rw [escapeChar_f h12] at hx
    rcases List.mem_cons.mp hx with rfl | hx
    · decide
    · rcases List.mem_singleton.mp hx with rfl
      decide
  by_cases h13 : c.toNat = 13
  · rw [escapeChar_r h13] at hx
    rcases List.mem_cons.mp hx with rfl | hx
    · decide
    · rcases List.mem_singleton.mp hx with rfl
      decide
  by_cases h32 : c.toNat < 32
  · rw [escapeChar_ctrl h32 h8 h9 h10 h12 h13] at hx
    rcases List.mem_cons.mp hx with rfl | hx
    · decide
    · rcases List.mem_cons.mp hx with rfl | hx
      · decide
      · exact hex4_ascii _ x hx
  by_cases h127 : c.toNat < 127
  · rw [escapeChar_printable (by omega) h127 hq hb] at hx
    rcases List.mem_singleton.mp hx with rfl
    omega
  by_cases h64 : c.toNat < 65536
  · rw [escapeChar_bmp (by omega) h64] at hx
    rcases List.mem_cons.mp hx with rfl | hx
    · decide
    · rcases List.mem_cons.mp hx with rfl | hx
      · decide
      · exact hex4_ascii _ x hx
  · rw [escapeChar_astral (by omega)] at hx
    rcases List.mem_append.mp hx with hx | hx
    · rcases List.mem_cons.mp hx with rfl | hx
      · decide
      · rcases List.mem_cons.mp hx with rfl | hx
        · decide
        · exact hex4_ascii _ x hx
    · rcases List.mem_cons.mp hx with rfl | hx
      · decide
      · rcases List.mem_cons.mp hx with rfl | hx
        · decide
        · exact hex4_ascii _ x hx

/-- Every character in a natural number's repr is a decimal digit. -/
theorem natRepr_digits (n : Nat) : ∀ x ∈ natRepr n, isDigit x = true := by
  induction n using Nat.strong_induction_on with
  | _ n ih =>
    intro x hx
    rw [natRepr.eq_def] at hx
    split_ifs at hx with h
    · rcases List.mem_singleton.mp hx with rfl
      simp only [isDigit, toNat_ofNat_lt (by omega : 48 + n < 55296),
        decide_eq_true_eq]
      omega
    · rcases List.mem_append.mp hx with hx | hx
      · exact ih (n / 10) (Nat.div_lt_self (by omega) (by omega)) x hx
      · rcases List.mem_singleton.mp hx with rfl
        have hm : n % 10 < 10 := Nat.mod_lt _ (by omega)
        simp only [isDigit, toNat_ofNat_lt (by omega : 48 + n % 10 < 55296),
          decide_eq_true_eq]
        omega

/-- A digit character is ASCII. -/
theorem isDigit_ascii {x : Char} (h : isDigit x = true) : x.toNat < 128 := by
  simp only [isDigit, decide_eq_true_eq] at h
  omega

/-- `json.dumps` output for one value is pure ASCII. -/
theorem dumpValue_ascii : ∀ v : JValue, ∀ x ∈ dumpValue v, x.toNat < 128
  | .null => by decide
  | .bool true => by decide
  | .bool false => by decide
  | .int (.ofNat m) => fun x hx => isDigit_ascii (natRepr_digits m x hx)
  | .int (.negSucc m) => by
    intro x hx
    rcases List.mem_cons.mp hx with rfl | hx
    · decide
    · exact isDigit_ascii (natRepr_digits (m + 1) x hx)
  | .str s => by
    intro x hx
    rcases List.mem_cons.mp hx with rfl | hx
    · decide
    · rcases List.mem_append.mp hx with hx | hx
      · obtain ⟨l, hl, hxl⟩ := List.mem_flatten.mp hx
        obtain ⟨c, _, rfl⟩ := List.mem_map.mp hl
        exact escapeChar_ascii c x hxl
      · rcases List.mem_singleton.mp hx with rfl
        decide

/-- The joined item list is pure ASCII. -/
theorem dumpItems_ascii : ∀ vs : List JValue, ∀ x ∈ dumpItems vs, x.toNat < 128
  | [] => by simp [dumpItems]
  | [v] => by
    simpa [dumpItems] using dumpValue_ascii v
  | v :: v' :: vs => by
    intro x hx
    have he : dumpItems (v :: v' :: vs) =
        dumpValue v ++ ',' :: ' ' :: dumpItems (v' :: vs) := rfl
    rw [he] at hx
    rcases List.mem_append.mp hx with hx | hx
    · exact dumpValue_ascii v x hx
    · rcases List.mem_cons.mp hx with rfl | hx
      · decide
      · rcases List.mem_cons.mp hx with rfl | hx
        · decide
        · exact dumpItems_ascii (v' :: vs) x hx

/-- `json.dumps` output is pure ASCII. -/
theorem dumps_ascii (vs : List JValue) : ∀ x ∈ dumps vs, x.toNat < 128 := by
  intro x hx
  rw [dumps] at hx
  rcases List.mem_cons.mp hx with rfl | hx
  · decide
  · rcases List.mem_append.mp hx with hx | hx
    · exact dumpItems_ascii vs x hx
    · rcases List.mem_singleton.mp hx with rfl
      decide

end ApiService
namespace ApiService

/-- `hexVal` inverts `hexDigitChar`. -/
theorem hexVal_hexDigitChar : ∀ n, n < 16 → hexVal (hexDigitChar n) = some n := by
  decide

/-- Parsing the four digits `hex4` produced gives back the value. -/
theorem hex4Val_hex4 {n : Nat} (h : n < 65536) :
    hex4Val (hexDigitChar (n / 4096 % 16)) (hexDigitChar (n / 256 % 16))
      (hexDigitChar (n / 16 % 16)) (hexDigitChar (n % 16)) = some n := by
  have e1 := hexVal_hexDigitChar (n / 4096 % 16) (Nat.mod_lt _ (by norm_num))
  have e2 := hexVal_hexDigitChar (n / 256 % 16) (Nat.mod_lt _ (by norm_num))
  have e3 := hexVal_hexDigitChar (n / 16 % 16) (Nat.mod_lt _ (by norm_num))
  have e4 := hexVal_hexDigitChar (n % 16) (Nat.mod_lt _ (by norm_num))
  rw [hex4Val, e1]
  simp only [Option.some_bind]
  rw [e2]
  simp only [Option.some_bind]
  rw [e3]
  simp only [Option.some_bind]
  rw [e4]
  simp only [Option.map_some']
  congr 1
  omega

/-- A digit run stops at a non-digit boundary. -/
theorem parseDigits_stop : ∀ (cs : List Char) (acc : Nat),
    headIsDigit cs = false → parseDigits cs acc = (acc, cs)
  | [], _, _ => rfl
  | c :: cs, acc, h => by
    simp only [headIsDigit] at h
    simp [parseDigits, h]

/-- A digit run folds an all-digit prefix into the accumulator. -/
theorem parseDigits_chain : ∀ (ds rest : List Char) (acc : Nat),
    (∀ c ∈ ds, isDigit c = true) →
    parseDigits (ds ++ rest) acc =
      parseDigits rest (ds.foldl (fun a c => a * 10 + (c.toNat - 48)) acc)
  | [], _, _, _ => rfl
  | d :: ds, rest, acc, h => by
    have hd : isDigit d = true := h d (by simp)
    rw [List.cons_append]
    simp only [parseDigits, hd, if_true, List.foldl_cons]
    exact parseDigits_chain ds rest _ (fun c hc => h c (by simp [hc]))

/-- Folding the repr's digits recovers the number. -/
theorem natRepr_foldl (n : Nat) : ∀ acc : Nat,
    (natRepr n).foldl (fun a c => a * 10 + (c.toNat - 48)) acc =
      acc * 10 ^ (natRepr n).length + n := by
  induction n using Nat.strong_induction_on with
  | _ n ih =>
    intro acc
    rw [natRepr.eq_def]
    split_ifs with h
    · simp only [List.foldl_cons, List.foldl_nil, List.length_singleton,
        toNat_ofNat_lt (by omega : 48 + n < 55296), pow_one]
      omega
    · rw [List.foldl_append, ih (n / 10) (Nat.div_lt_self (by omega) (by omega)),
        List.length_append, List.length_singleton]
      simp only [List.foldl_cons, List.foldl_nil,
        toNat_ofNat_lt (by omega : 48 + n % 10 < 55296)]
      have h1 := Nat.div_add_mod n 10
      calc (acc * 10 ^ (natRepr (n / 10)).length + n / 10) * 10 + (48 + n % 10 - 48)
          = acc * (10 ^ (natRepr (n / 10)).length * 10) +
              (10 * (n / 10) + n % 10) := by
            have : 48 + n % 10 - 48 = n % 10 := by omega
            rw [this]; ring
        _ = acc * 10 ^ ((natRepr (n / 10)).length + 1) + n := by
            rw [h1, pow_succ]

/-- The repr of a natural number is never empty. -/
theorem natRepr_ne_nil (n : Nat) : natRepr n ≠ [] := by
  rw [natRepr.eq_def]
  split_ifs <;> simp

end ApiService
namespace ApiService

theorem psb_close (f : Nat) (rest : List Char) :
    parseStringBody (f + 1) ('"' :: rest) = some ([], rest) := by
  simp only [parseStringBody]
  rw [if_pos trivial]

theorem psb_esc_quote (f : Nat) (tail : List Char) :
    parseStringBody (f + 1) ('\\' :: '"' :: tail) =
      (parseStringBody f tail).map fun p => ('"' :: p.1, p.2) := by
  simp only [parseStringBody]
  rw [if_neg (by decide), if_pos trivial, if_pos trivial]

theorem psb_esc_backslash (f : Nat) (tail : List Char) :
    parseStringBody (f + 1) ('\\' :: '\\' :: tail) =
      (parseStringBody f tail).map fun p => ('\\' :: p.1, p.2) := by
  simp only [parseStringBody]
  rw [if_neg (by decide), if_pos trivial, if_neg (by decide), if_pos trivial]

theorem psb_esc_b (f : Nat) (tail : List Char) :
    parseStringBody (f + 1) ('\\' :: 'b' :: tail) =
      (parseStringBody f tail).map fun p => (Char.ofNat 8 :: p.1, p.2) := by
  simp only [parseStringBody]
  rw [if_neg (by decide), if_pos trivial, if_neg (by decide), if_neg (by decide),
    if_neg (by decide), if_pos trivial]

theorem psb_esc_t (f : Nat) (tail : List Char) :
    parseStringBody (f + 1) ('\\' :: 't' :: tail) =
      (parseStringBody f tail).map fun p => (Char.ofNat 9 :: p.1, p.2) := by
  simp only [parseStringBody]
  rw [if_neg (by decide), if_pos trivial, if_neg (by decide), if_neg (by decide),
    if_neg (by decide), if_neg (by decide), if_neg (by decide), if_neg (by decide),
    if_neg (by decide), if_pos trivial]

theorem psb_esc_n (f : Nat) (tail : List Char) :
    parseStringBody (f + 1) ('\\' :: 'n' :: tail) =
      (parseStringBody f tail).map fun p => (Char.ofNat 10 :: p.1, p.2) := by
  simp only [parseStringBody]
  rw [if_neg (by decide), if_pos trivial, if_neg (by decide), if_neg (by decide),
    if_neg (by decide), if_neg (by decide), if_neg (by decide), if_pos trivial]

theorem psb_esc_f (f : Nat) (tail : List Char) :
    parseStringBody (f + 1) ('\\' :: 'f' :: tail) =
      (parseStringBody f tail).map fun p => (Char.ofNat 12 :: p.1, p.2) := by
  simp only [parseStringBody]
  rw [if_neg (by decide), if_pos trivial, if_neg (by decide), if_neg (by decide),
    if_neg (by decide), if_neg (by decide), if_pos trivial]

theorem psb_esc_r (f : Nat) (tail : List Char) :
    parseStringBody (f + 1) ('\\' :: 'r' :: tail) =
      (parseStringBody f tail).map fun p => (Char.ofNat 13 :: p.1, p.2) := by
  simp only [parseStringBody]
  rw [if_neg (by decide), if_pos trivial, if_neg (by decide), if_neg (by decide),
    if_neg (by decide), if_neg (by decide), if_neg (by decide), if_neg (by decide),
    if_pos trivial]

theorem psb_raw (f : Nat) (c : Char) (tail : List Char)
    (hq : ¬ c = '"') (hb : ¬ c = '\\') (hc : ¬ c.toNat < 32) :
    parseStringBody (f + 1) (c :: tail) =
      (parseStringBody f tail).map fun p => (c :: p.1, p.2) := by
  simp only [parseStringBody]
  rw [if_neg hq, if_neg hb, if_neg hc]

end ApiService
namespace ApiService

theorem psb_esc_u (f : Nat) (h1 h2 h3 h4 : Char) (tail : List Char) (n : Nat)
    (hv : hex4Val h1 h2 h3 h4 = some n) (hns : ¬ (55296 ≤ n ∧ n ≤ 56319)) :
    parseStringBody (f + 1) ('\\' :: 'u' :: h1 :: h2 :: h3 :: h4 :: tail) =
      (parseStringBody f tail).map fun p => (Char.ofNat n :: p.1, p.2) := by
  simp only [parseStringBody]
  rw [if_neg (by decide), if_pos trivial, if_neg (by decide), if_neg (by decide),
    if_neg (by decide), if_neg (by decide), if_neg (by decide), if_neg (by decide),
    if_neg (by decide), if_neg (by decide), if_pos trivial, hv]
  simp only [if_neg hns]

end ApiService

namespace ApiService

theorem psb_esc_u_pair (f : Nat) (h1 h2 h3 h4 g1 g2 g3 g4 : Char)
    (tail : List Char) (n m : Nat)
    (hv1 : hex4Val h1 h2 h3 h4 = some n) (hsur : 55296 ≤ n ∧ n ≤ 56319)
    (hv2 : hex4Val g1 g2 g3 g4 = some m) (hlow : 56320 ≤ m ∧ m ≤ 57343) :
    parseStringBody (f + 1)
        ('\\' :: 'u' :: h1 :: h2 :: h3 :: h4 ::
         '\\' :: 'u' :: g1 :: g2 :: g3 :: g4 :: tail) =
      (parseStringBody f tail).map fun p =>
        (Char.ofNat (65536 + (n - 55296) * 1024 + (m - 56320)) :: p.1, p.2) := by
  simp only [parseStringBody]
  rw [if_neg (by decide), if_pos trivial, if_neg (by decide), if_neg (by decide),
    if_neg (by decide), if_neg (by decide), if_neg (by decide), if_neg (by decide),
    if_neg (by decide), if_neg (by decide), if_pos trivial, hv1]
  simp only [if_pos hsur, hv2, if_pos hlow]

end ApiService
namespace ApiService

/-- The scanner inverts the escaper: parsing the escaped text of `cs`
followed by the closing quote yields `cs` and the input after the quote. -/
theorem parseStringBody_escaped :
    ∀ (cs : List Char) (fuel : Nat) (rest : List Char), cs.length < fuel →
      parseStringBody fuel ((cs.map escapeChar).flatten ++ '"' :: rest) =
        some (cs, rest)
  | [], fuel, rest, hf => by
    obtain ⟨f, rfl⟩ : ∃ f, fuel = f + 1 := ⟨fuel - 1, by omega⟩
    simpa using psb_close f rest
  | c :: cs, fuel, rest, hf => by
    obtain ⟨f, rfl⟩ : ∃ f, fuel = f + 1 := ⟨fuel - 1, by omega⟩
    have hf' : cs.length < f := by
      simp only [List.length_cons] at hf
      omega
    have ih := parseStringBody_escaped cs f rest hf'
    rw [List.map_cons, List.flatten_cons, List.append_assoc]
    by_cases hq : c = '"'
    · rw [escapeChar_quote hq, List.cons_append, List.cons_append,
        List.nil_append, psb_esc_quote, ih]
      subst hq
      rfl
    by_cases hb : c = '\\'
    · rw [escapeChar_backslash hb, List.cons_append, List.cons_append,
        List.nil_append, psb_esc_backslash, ih]
      subst hb
      rfl
    by_cases h8 : c.toNat = 8
    · rw [escapeChar_b h8, List.cons_append, List.cons_append,
        List.nil_append, psb_esc_b, ih]
      have : Char.ofNat 8 = c := by rw [← h8, Char.ofNat_toNat]
      rw [this]
      rfl
    by_cases h9 : c.toNat = 9
    · rw [escapeChar_t h9, List.cons_append, List.cons_append,
        List.nil_append, psb_esc_t, ih]
      have : Char.ofNat 9 = c := by rw [← h9, Char.ofNat_toNat]
      rw [this]
      rfl
    by_cases h10 : c.toNat = 10
    · rw [escapeChar_n h10, List.cons_append, List.cons_append,
        List.nil_append, psb_esc_n, ih]
      have : Char.ofNat 10 = c := by rw [← h10, Char.ofNat_toNat]
      rw [this]
      rfl
    by_cases h12 : c.toNat = 12
    · rw [escapeChar_f h12, List.cons_append, List.cons_append,
        List.nil_append, psb_esc_f, ih]
      have : Char.ofNat 12 = c := by rw [← h12, Char.ofNat_toNat]
      rw [this]
      rfl
    by_cases h13 : c.toNat = 13
    · rw [escapeChar_r h13, List.cons_append, List.cons_append,
        List.nil_append, psb_esc_r, ih]
      have : Char.ofNat 13 = c := by rw [← h13, Char.ofNat_toNat]
      rw [this]
      rfl
    by_cases h32 : c.toNat < 32
    · rw [escapeChar_ctrl h32 h8 h9 h10 h12 h13, hex4, List.cons_append,
        List.cons_append, List.cons_append, List.cons_append, List.cons_append,
        List.cons_append, List.nil_append,
        psb_esc_u f _ _ _ _ _ c.toNat (hex4Val_hex4 (by omega)) (by omega), ih]
      rw [Char.ofNat_toNat]
      rfl
    by_cases h127 : c.toNat < 127
    · rw [escapeChar_printable (by omega) h127 hq hb, List.cons_append,
        List.nil_append, psb_raw f c _ hq hb (by omega), ih]
      rfl
    by_cases h64 : c.toNat < 65536
    · have hval := char_toNat_valid c
      rw [escapeChar_bmp (by omega) h64, hex4, List.cons_append,
        List.cons_append, List.cons_append, List.cons_append, List.cons_append,
        List.cons_append, List.nil_append,
        psb_esc_u f _ _ _ _ _ c.toNat (hex4Val_hex4 (by omega)) (by omega), ih]
      rw [Char.ofNat_toNat]
      rfl
    · have hval := char_toNat_valid c
      have hhi : 55296 + (c.toNat - 65536) / 1024 < 65536 := by omega
      have hlo : 56320 + (c.toNat - 65536) % 1024 < 65536 := by
        have := Nat.mod_lt (c.toNat - 65536) (y := 1024) (by norm_num)
        omega
      rw [escapeChar_astral (by omega)]
      simp only [hex4, List.cons_append, List.nil_append, List.append_assoc]
      rw [psb_esc_u_pair f _ _ _ _ _ _ _ _ _
        (55296 + (c.toNat - 65536) / 1024) (56320 + (c.toNat - 65536) % 1024)
        (hex4Val_hex4 hhi)
        (by
          have hdiv : (c.toNat - 65536) / 1024 < 1024 :=
            Nat.div_lt_of_lt_mul (by omega)
          omega)
        (hex4Val_hex4 hlo)
        (by
          have := Nat.mod_lt (c.toNat - 65536) (y := 1024) (by norm_num)
          omega), ih]
      have hc : 65536 + (55296 + (c.toNat - 65536) / 1024 - 55296) * 1024 +
          (56320 + (c.toNat - 65536) % 1024 - 56320) = c.toNat := by
        have h1 : (c.toNat - 65536) / 1024 * 1024 + (c.toNat - 65536) % 1024 =
            c.toNat - 65536 := by
          have := Nat.div_add_mod (c.toNat - 65536) 1024
          omega
        omega
      rw [hc, Char.ofNat_toNat]
      rfl

end ApiService
namespace ApiService

/-- Escapes are never empty. -/
theorem escapeChar_length_pos (c : Char) : 1 ≤ (escapeChar c).length := by
  by_cases hq : c = '"'
  · rw [escapeChar_quote hq]; decide
  by_cases hb : c = '\\'
  · rw [escapeChar_backslash hb]; decide
  by_cases h8 : c.toNat = 8
  · rw [escapeChar_b h8]; decide
  by_cases h9 : c.toNat = 9
  · rw [escapeChar_t h9]; decide
  by_cases h10 : c.toNat = 10
  · rw [escapeChar_n h10]; decide
  by_cases h12 : c.toNat = 12
  · rw [escapeChar_f h12]; decide
  by_cases h13 : c.toNat = 13
  · rw [escapeChar_r h13]; decide
  by_cases h32 : c.toNat < 32
  · rw [escapeChar_ctrl h32 h8 h9 h10 h12 h13]; simp [hex4]
  by_cases h127 : c.toNat < 127
  · rw [escapeChar_printable (by omega) h127 hq hb]; simp
  by_cases h64 : c.toNat < 65536
  · rw [escapeChar_bmp (by omega) h64]; simp [hex4]
  · rw [escapeChar_astral (by omega)]; simp [hex4]

/-- Escaping cannot shorten a string. -/
theorem escape_flatten_ge : ∀ cs : List Char,
    cs.length ≤ ((cs.map escapeChar).flatten).length
  | [] => le_rfl
  | c :: cs => by
    rw [List.map_cons, List.flatten_cons, List.length_append, List.length_cons]
    have h1 := escapeChar_length_pos c
    have h2 := escape_flatten_ge cs
    omega

theorem pv_null (cs : List Char) :
    parseValue ('n' :: 'u' :: 'l' :: 'l' :: cs) = some (.null, cs) := by
  simp only [parseValue]
  rw [if_pos trivial]

theorem pv_true (cs : List Char) :
    parseValue ('t' :: 'r' :: 'u' :: 'e' :: cs) = some (.bool true, cs) := by
  simp only [parseValue]
  rw [if_neg (by decide), if_pos trivial]

theorem pv_false (cs : List Char) :
    parseValue ('f' :: 'a' :: 'l' :: 's' :: 'e' :: cs) = some (.bool false, cs) := by
  simp only [parseValue]
  rw [if_neg (by decide), if_neg (by decide), if_pos trivial]

theorem pv_str (cs : List Char) :
    parseValue ('"' :: cs) =
      (parseStringBody (cs.length + 1) cs).map fun p => (.str ⟨p.1⟩, p.2) := by
  simp only [parseValue]
  rw [if_neg (by decide), if_neg (by decide), if_neg (by decide), if_pos trivial]

theorem pv_digit (c : Char) (cs : List Char) (hd : isDigit c = true) :
    parseValue (c :: cs) =
      some (.int ((parseDigits cs (c.toNat - 48)).1 : Int),
        (parseDigits cs (c.toNat - 48)).2) := by
  have hn : ¬ c = 'n' := fun e => by subst e; exact absurd hd (by decide)
  have ht : ¬ c = 't' := fun e => by subst e; exact absurd hd (by decide)
  have hf : ¬ c = 'f' := fun e => by subst e; exact absurd hd (by decide)
  have hq : ¬ c = '"' := fun e => by subst e; exact absurd hd (by decide)
  have hm : ¬ c = '-' := fun e => by subst e; exact absurd hd (by decide)
  simp only [parseValue]
  rw [if_neg hn, if_neg ht, if_neg hf, if_neg hq, if_neg hm]
  simp only [hd, if_true]

theorem pv_neg (c2 : Char) (cs : List Char) (hd : isDigit c2 = true) :
    parseValue ('-' :: c2 :: cs) =
      some (.int (-((parseDigits cs (c2.toNat - 48)).1 : Int)),
        (parseDigits cs (c2.toNat - 48)).2) := by
  simp only [parseValue]
  rw [if_neg (by decide), if_neg (by decide), if_neg (by decide),
    if_neg (by decide), if_pos trivial]
  simp only [hd, if_true]

end ApiService
namespace ApiService

/-- The scanner inverts `json.dumps` on one value: parsing the dumped value
followed by a non-digit boundary yields the value back. -/
theorem parseValue_dumpValue : ∀ (v : JValue) (rest : List Char),
    headIsDigit rest = false → parseValue (dumpValue v ++ rest) = some (v, rest)
  | .null, rest, _ => by
    rw [show dumpValue .null ++ rest = 'n' :: 'u' :: 'l' :: 'l' :: rest from rfl,
      pv_null]
  | .bool true, rest, _ => by
    rw [show dumpValue (.bool true) ++ rest = 't' :: 'r' :: 'u' :: 'e' :: rest
      from rfl, pv_true]
  | .bool false, rest, _ => by
    rw [show dumpValue (.bool false) ++ rest =
      'f' :: 'a' :: 'l' :: 's' :: 'e' :: rest from rfl, pv_false]
  | .str s, rest, _ => by
    have he : dumpValue (.str s) ++ rest =
        '"' :: ((s.toList.map escapeChar).flatten ++ '"' :: rest) := by
      simp [dumpValue]
    rw [he, pv_str]
    have hlen : s.toList.length <
        ((s.toList.map escapeChar).flatten ++ '"' :: rest).length + 1 := by
      rw [List.length_append, List.length_cons]
      have := escape_flatten_ge s.toList
      omega
    rw [parseStringBody_escaped s.toList _ rest hlen]
    rfl
  | .int (.ofNat m), rest, hrest => by
    obtain ⟨d, ds, hds⟩ := List.exists_cons_of_ne_nil (natRepr_ne_nil m)
    have hdig : ∀ x ∈ natRepr m, isDigit x = true := natRepr_digits m
    have hd : isDigit d = true := hdig d (by rw [hds]; simp)
    have hds' : ∀ x ∈ ds, isDigit x = true := fun x hx =>
      hdig x (by rw [hds]; simp [hx])
    rw [show dumpValue (.int (.ofNat m)) = natRepr m from rfl, hds,
      List.cons_append, pv_digit d _ hd,
      parseDigits_chain ds rest _ hds']
    have hfold : ds.foldl (fun a c => a * 10 + (c.toNat - 48)) (d.toNat - 48) = m := by
      have h0 : (natRepr m).foldl (fun a c => a * 10 + (c.toNat - 48)) 0 = m := by
        rw [natRepr_foldl m 0]
        simp
      rw [hds, List.foldl_cons] at h0
      simpa using h0
    rw [hfold, parseDigits_stop rest m hrest]
    rfl
  | .int (.negSucc m), rest, hrest => by
    obtain ⟨d, ds, hds⟩ := List.exists_cons_of_ne_nil (natRepr_ne_nil (m + 1))
    have hdig : ∀ x ∈ natRepr (m + 1), isDigit x = true := natRepr_digits (m + 1)
    have hd : isDigit d = true := hdig d (by rw [hds]; simp)
    have hds' : ∀ x ∈ ds, isDigit x = true := fun x hx =>
      hdig x (by rw [hds]; simp [hx])
    rw [show dumpValue (.int (.negSucc m)) = '-' :: natRepr (m + 1) from rfl,
      List.cons_append, hds, List.cons_append, pv_neg d _ hd,
      parseDigits_chain ds rest _ hds']
    have hfold : ds.foldl (fun a c => a * 10 + (c.toNat - 48)) (d.toNat - 48) = m + 1 := by
      have h0 : (natRepr (m + 1)).foldl (fun a c => a * 10 + (c.toNat - 48)) 0 = m + 1 := by
        rw [natRepr_foldl (m + 1) 0]
        simp
      rw [hds, List.foldl_cons] at h0
      simpa using h0
    rw [hfold, parseDigits_stop rest (m + 1) hrest]
    have : -((m + 1 : Nat) : Int) = Int.negSucc m := by
      rw [Int.negSucc_eq]
      push_cast
      ring
    rw [this]

end ApiService
namespace ApiService

/-- Every dumped value starts with a value-start character. -/
theorem dumpValue_head : ∀ v : JValue, ∃ c cs', dumpValue v = c :: cs' ∧
    (c = 'n' ∨ c = 't' ∨ c = 'f' ∨ c = '"' ∨ c = '-' ∨ isDigit c = true)
  | .null => ⟨'n', _, rfl, by simp⟩
  | .bool true => ⟨'t', _, rfl, by simp⟩
  | .bool false => ⟨'f', _, rfl, by simp⟩
  | .str s => ⟨'"', _, rfl, by simp⟩
  | .int (.negSucc m) => ⟨'-', _, rfl, by simp⟩
  | .int (.ofNat m) => by
    obtain ⟨d, ds, hds⟩ := List.exists_cons_of_ne_nil (natRepr_ne_nil m)
    exact ⟨d, ds, hds, Or.inr (Or.inr (Or.inr (Or.inr (Or.inr
      (natRepr_digits m d (by rw [hds]; simp))))))⟩

/-- A value-start character is not JSON whitespace. -/
theorem skipWs_value_start (c : Char) (tail : List Char)
    (h : c = 'n' ∨ c = 't' ∨ c = 'f' ∨ c = '"' ∨ c = '-' ∨ isDigit c = true) :
    skipWs (c :: tail) = c :: tail := by
  have hns : ¬ (c = ' ' ∨ c = '\t' ∨ c = '\n' ∨ c = '\r') := by
    rcases h with rfl | rfl | rfl | rfl | rfl | hd
    · decide
    · decide
    · decide
    · decide
    · decide
    · rintro (rfl | rfl | rfl | rfl) <;> exact absurd hd (by decide)
  simp only [skipWs]
  rw [if_neg hns]

/-- A value-start character is not the array terminator. -/
theorem value_start_ne_rbracket (c : Char)
    (h : c = 'n' ∨ c = 't' ∨ c = 'f' ∨ c = '"' ∨ c = '-' ∨ isDigit c = true) :
    c ≠ ']' := by
  rcases h with rfl | rfl | rfl | rfl | rfl | hd
  · decide
  · decide
  · decide
  · decide
  · decide
  · intro e
    subst e
    exact absurd hd (by decide)

/-- The joined items of a nonempty list start with the first value's text. -/
theorem dumpItems_cons_decomp (v : JValue) (vs : List JValue) :
    ∃ tail, dumpItems (v :: vs) = dumpValue v ++ tail := by
  cases vs with
  | nil => exact ⟨[], by simp [dumpItems]⟩
  | cons v' vs => exact ⟨',' :: ' ' :: dumpItems (v' :: vs), rfl⟩

/-- Dumped values are nonempty. -/
theorem dumpValue_length_pos (v : JValue) : 1 ≤ (dumpValue v).length := by
  obtain ⟨c, cs', hv, -⟩ := dumpValue_head v
  rw [hv]
  simp

/-- The joined item text is at least as long as the item list. -/
theorem dumpItems_length_ge : ∀ vs : List JValue,
    vs.length ≤ (dumpItems vs).length
  | [] => le_rfl
  | [v] => by
    simpa [dumpItems] using dumpValue_length_pos v
  | v :: v' :: vs => by
    have h1 := dumpValue_length_pos v
    have h2 := dumpItems_length_ge (v' :: vs)
    have he : dumpItems (v :: v' :: vs) =
        dumpValue v ++ ',' :: ' ' :: dumpItems (v' :: vs) := rfl
    rw [he, List.length_append]
    simp only [List.length_cons] at *
    omega

end ApiService
namespace ApiService

/-- The items loop inverts the `', '.join` of dumped values. -/
theorem parseItems_dumpItems : ∀ (vs : List JValue) (fuel : Nat) (rest : List Char),
    vs ≠ [] → vs.length ≤ fuel →
    parseItems fuel (dumpItems vs ++ ']' :: rest) = some (vs, rest)
  | [], _, _, h, _ => absurd rfl h
  | [v], fuel, rest, _, hf => by
    simp only [List.length_cons, List.length_nil] at hf
    obtain ⟨f, rfl⟩ : ∃ f, fuel = f + 1 := ⟨fuel - 1, by omega⟩
    rw [show dumpItems [v] = dumpValue v from rfl]
    simp only [parseItems]
    rw [parseValue_dumpValue v (']' :: rest) (by simp only [headIsDigit]; decide)]
    simp only [Option.some_bind]
    rw [show skipWs (']' :: rest) = ']' :: rest from by simp [skipWs]]
    split
    · next cs2 heq =>
      exact absurd (List.head_eq_of_cons_eq heq) (by decide)
    · next cs2 heq =>
      obtain ⟨-, rfl⟩ : ']' = ']' ∧ rest = cs2 := List.cons.inj heq
      rfl
    · next hne1 hne2 =>
      exact absurd rfl (hne2 rest)
  | v :: v' :: vs, fuel, rest, _, hf => by
    simp only [List.length_cons] at hf
    obtain ⟨f, rfl⟩ : ∃ f, fuel = f + 1 := ⟨fuel - 1, by omega⟩
    rw [show dumpItems (v :: v' :: vs) =
      dumpValue v ++ ',' :: ' ' :: dumpItems (v' :: vs) from rfl]
    simp only [List.append_assoc, List.cons_append]
    simp only [parseItems]
    rw [parseValue_dumpValue v _ (by simp only [headIsDigit]; decide)]
    simp only [Option.some_bind]
    rw [show ∀ t : List Char, skipWs (',' :: t) = ',' :: t from
      fun t => by simp [skipWs]]
    split
    · next cs2 heq =>
      obtain ⟨-, rfl⟩ : ',' = ',' ∧ ' ' :: (dumpItems (v' :: vs) ++ ']' :: rest) = cs2 :=
        List.cons.inj heq
      rw [show ∀ t : List Char, skipWs (' ' :: t) = skipWs t from
        fun t => by simp [skipWs]]
      obtain ⟨c, cs', hdv, hcls⟩ := dumpValue_head v'
      obtain ⟨tail, htail⟩ := dumpItems_cons_decomp v' vs
      have hshape : dumpItems (v' :: vs) ++ ']' :: rest =
          c :: (cs' ++ tail ++ ']' :: rest) := by
        rw [htail, hdv]
        simp
      rw [hshape, skipWs_value_start c _ hcls, ← hshape]
      rw [parseItems_dumpItems (v' :: vs) f rest (by simp) (by
        simp only [List.length_cons]
        omega)]
      rfl
    · next cs2 heq =>
      exact absurd (List.head_eq_of_cons_eq heq) (by decide)
    · next hne1 hne2 =>
      exact absurd rfl (hne1 (' ' :: (dumpItems (v' :: vs) ++ ']' :: rest)))

/-- `json.loads` inverts `json.dumps` on sort-value arrays. -/
theorem loads_dumps : ∀ vs : List JValue, loads (dumps vs) = some vs
  | [] => rfl
  | v :: vs => by
    rw [dumps, loads]
    simp only [List.cons_append]
    rw [show skipWs ('[' :: (dumpItems (v :: vs) ++ [']'])) =
      '[' :: (dumpItems (v :: vs) ++ [']']) from by simp [skipWs]]
    obtain ⟨c, cs', hdv, hcls⟩ := dumpValue_head v
    obtain ⟨tail, htail⟩ := dumpItems_cons_decomp v vs
    have hshape : dumpItems (v :: vs) ++ [']'] = c :: (cs' ++ tail ++ [']']) := by
      rw [htail, hdv]
      simp
    have hc : c ≠ ']' := value_start_ne_rbracket c hcls
    split
    · next cs1 heq =>
      obtain ⟨-, rfl⟩ : '[' = '[' ∧ dumpItems (v :: vs) ++ [']'] = cs1 :=
        List.cons.inj heq
      rw [hshape, skipWs_value_start c _ hcls]
      split
      · next cs2 heq2 =>
        exact absurd (List.head_eq_of_cons_eq heq2) hc
      · next cs2 hne2 =>
        have hlen := dumpItems_length_ge (v :: vs)
        rw [← hshape]
        rw [parseItems_dumpItems (v :: vs) _ [] (by simp) (by
          rw [List.length_append]
          simp only [List.length_cons] at *
          omega)]
        rfl
    · next hne =>
      exact absurd rfl (hne (dumpItems (v :: vs) ++ [']']))

end ApiService

/-- C10: decoding a cursor token returns exactly the sort values it was
created from — `decode_search_after_token (create_search_after_token v) = v`:
the `json.dumps`/`base64` encoding round-trips through `b64decode`, UTF-8
decoding and `json.loads`. -/
theorem C10_cursor_token_round_trip (vs : List ApiService.JValue) :
    ApiService.decode_search_after_token (ApiService.create_search_after_token vs) =
      .ok vs := by
  have hascii := ApiService.dumps_ascii vs
  have henc : ApiService.utf8Encode (ApiService.dumps vs) =
      (ApiService.dumps vs).map Char.toNat :=
    ApiService.utf8Encode_ascii _ hascii
  have hbytes : ∀ b ∈ ApiService.utf8Encode (ApiService.dumps vs), b < 256 := by
    rw [henc]
    intro b hb
    obtain ⟨c, hc, rfl⟩ := List.mem_map.mp hb
    have := hascii c hc
    omega
  rw [ApiService.decode_search_after_token, ApiService.create_search_after_token]
  rw [show (String.mk (ApiService.b64encodeList
      (ApiService.utf8Encode (ApiService.dumps vs)))).data =
    ApiService.b64encodeList (ApiService.utf8Encode (ApiService.dumps vs)) from rfl]
  rw [ApiService.b64_roundtrip _ hbytes]
  simp only [Option.some_bind]
  rw [henc]
  rw [ApiService.utf8Decode_ascii (ApiService.dumps vs) _
    (by rw [List.length_map]; omega) hascii]
  simp only [Option.some_bind]
  rw [ApiService.loads_dumps vs]
